import Mathlib

/-!
Verification development for the RatOS configurator G-code post-processor.

This file gives a shallow embedding, in Lean 4, of the core of the streaming
G-code post-processor (`src/server/gcode-processor/`): the common-command line
parser (`CommonGCodeCommand.ts`), the file facade printability decision
(`GCodeFile.inspect`), the header validation (`Actions.ts` / `getGcodeInfo`),
the `START_PRINT` search (`getStartPrint`), extent tracking (`findMinMaxX`),
toolchange rewriting (`processToolchange`), the bookmarking byte encoder
(`BookmarkingBufferEncoder._transform`), the sliding-window line processor
(`SlidingWindowLineProcessor._transform` / `_flush`) and the retro-patch
write (`replaceBookmarkedGcodeLine`).

Definitions are translated from the TypeScript source.  JavaScript strings
are modelled as Lean `String`, JavaScript numbers as `ℚ` (with the exact
rational values of `Number.MAX_VALUE` and `Number.MIN_VALUE` for the
sentinels), and byte buffers as `List Nat` of UTF-8 code units.  Thrown
exceptions are modelled with `Except`.
-/

set_option linter.unusedVariables false
set_option maxRecDepth 4000

namespace RatOS

/-! ### JavaScript string helpers -/

/-- The character class `\s` of JavaScript regular expressions, restricted to
the code points that can occur in the text handled here (space, tab, LF, CR,
VT, FF, NBSP, BOM). -/
def jsIsSpace (c : Char) : Bool :=
  c == ' ' || c == '\t' || c == '\n' || c == '\r' || c.toNat == 11 ||
  c.toNat == 12 || c.toNat == 0xA0 || c.toNat == 0xFEFF

/-- Case-insensitive character comparison, as used by the `/i` regex flag. -/
def ciEq (c d : Char) : Bool := c.toLower == d.toLower

/-- `String.prototype.trimEnd`: drop trailing whitespace characters. -/
def jsTrimEnd (s : String) : String :=
  String.mk ((s.toList.reverse.dropWhile jsIsSpace).reverse)

/-- A run of `n` space characters. -/
def spaces (n : Nat) : String := String.mk (List.replicate n ' ')

/-- `s.padEnd(s.length + n)`: append exactly `n` spaces.  (`padEnd` pads with
U+0020 until the length reaches the target.) -/
def jsPadBy (s : String) (n : Nat) : String := s ++ spaces n

/-- Does `hay` start with `needle`?  (`String.prototype.startsWith`.) -/
def listStartsWith : List Char → List Char → Bool
  | _, [] => true
  | [], _ :: _ => false
  | c :: cs, d :: ds => c == d && listStartsWith cs ds

/-- Does `hay` contain `needle` as a contiguous substring? -/
def listContainsSub (hay needle : List Char) : Bool :=
  match hay with
  | [] => needle.isEmpty
  | _ :: rest => listStartsWith hay needle || listContainsSub rest needle

/-- `String` version of `listContainsSub`. -/
def strContainsSub (hay needle : String) : Bool :=
  listContainsSub hay.toList needle.toList

/-- `String.prototype.startsWith`. -/
def jsStartsWith (s p : String) : Bool := listStartsWith s.toList p.toList

/-- Helper for `jsSplitComma`: accumulate the current field (reversed). -/
def splitCommaAux : List Char → List Char → List String
  | [], acc => [String.mk acc.reverse]
  | c :: rest, acc =>
    if c = ',' then String.mk acc.reverse :: splitCommaAux rest []
    else splitCommaAux rest (c :: acc)

/-- `String.prototype.split(',')`. -/
def jsSplitComma (s : String) : List String := splitCommaAux s.toList []

/-! ### UTF-8 encoding (`Buffer.from(string, 'utf8')`) -/

/-- UTF-8 encoding of a single scalar value, as a list of byte values. -/
def utf8Char (c : Char) : List Nat :=
  let n := c.toNat
  if n < 0x80 then [n]
  else if n < 0x800 then [0xC0 + n / 64, 0x80 + n % 64]
  else if n < 0x10000 then
    [0xE0 + n / 4096, 0x80 + (n / 64) % 64, 0x80 + n % 64]
  else
    [0xF0 + n / 262144, 0x80 + (n / 4096) % 64, 0x80 + (n / 64) % 64,
     0x80 + n % 64]

/-- UTF-8 encoding of a string, as a list of byte values. -/
def utf8Bytes (s : String) : List Nat := s.toList.flatMap utf8Char

/-- Encoded byte length of a string. -/
def utf8Len (s : String) : Nat := (utf8Bytes s).length

theorem toList_append (s t : String) : (s ++ t).toList = s.toList ++ t.toList := by
  simp [String.toList]

theorem utf8Bytes_append (s t : String) :
    utf8Bytes (s ++ t) = utf8Bytes s ++ utf8Bytes t := by
  simp [utf8Bytes, toList_append]

theorem utf8Char_space : utf8Char ' ' = [32] := rfl

theorem utf8Bytes_spaces (n : Nat) :
    utf8Bytes (spaces n) = List.replicate n 32 := by
  induction n with
  | zero => rfl
  | succ k ih =>
    simp only [spaces, utf8Bytes, String.toList] at ih ⊢
    simp only [List.replicate_succ, List.flatMap_cons, ih, utf8Char_space]
    rfl

/-! ### The common-command line parser (`CommonGCodeCommand.ts`)

`parseCommonGCodeCommandLine` recognises `G0`/`G1`, `G2`/`G3` and `Tn`
command lines with the three regular expressions `rxG01`, `rxG23` and `rxT`.
Each numeric parameter of the `G` commands is matched either *adjacently*
(immediately at the current position, advancing it) or through a lazy
lookahead `(?=[^;]*?(?:X\s*([+-]?[\d.]+)))` that finds the first occurrence
of the parameter before any `;`, without advancing the position.  `rxG01`
allows whitespace between the parameter letter and its number; `rxG23` does
not. -/

/-- Parsed view of a single instruction line (`CommonGCodeCommand`).
`G0` is normalised to value `"1"`. -/
structure CommonGCodeCommand where
  letter : Char
  value : String
  x : Option String := none
  y : Option String := none
  e : Option String := none
  z : Option String := none
  f : Option String := none
  i : Option String := none
  j : Option String := none
deriving Repr, DecidableEq

/-- Greedily take leading characters matching `[\d.]`. -/
def takeDigitsDots : List Char → (List Char × List Char)
  | [] => ([], [])
  | c :: rest =>
    if c.isDigit || c == '.' then
      let t := takeDigitsDots rest
      (c :: t.1, t.2)
    else ([], c :: rest)

/-- Greedily take leading characters matching `\d`. -/
def takeDigits : List Char → (List Char × List Char)
  | [] => ([], [])
  | c :: rest =>
    if c.isDigit then
      let t := takeDigits rest
      (c :: t.1, t.2)
    else ([], c :: rest)

/-- Match `[+-]?[\d.]+` at the head of the input, returning the captured text
and the rest of the input. -/
def parseNum : List Char → Option (List Char × List Char)
  | [] => none
  | c :: rest =>
    if c == '+' || c == '-' then
      match takeDigitsDots rest with
      | ([], _) => none
      | (t, r) => some (c :: t, r)
    else
      match takeDigitsDots (c :: rest) with
      | ([], _) => none
      | (t, r) => some (t, r)

/-- Skip `\s*`. -/
def skipWs (s : List Char) : List Char := s.dropWhile jsIsSpace

/-- Adjacent parameter match: `\s*X\s*([+-]?[\d.]+)` (with the inner `\s*`
only when `wsNum` is true, as in `rxG01`).  Advances the position. -/
def adjParam (wsNum : Bool) (pc : Char) (s : List Char) :
    Option (List Char × List Char) :=
  match skipWs s with
  | [] => none
  | c :: rest =>
    if ciEq c pc then parseNum (if wsNum then skipWs rest else rest)
    else none

/-- Lookahead parameter match: `(?=[^;]*?(?:X\s*([+-]?[\d.]+)))` — find the
first position, before any `;`, where the parameter letter followed by a
number occurs.  Does not advance the position. -/
def lookParam (wsNum : Bool) (pc : Char) : List Char → Option (List Char)
  | [] => none
  | c :: rest =>
    if ciEq c pc then
      match parseNum (if wsNum then skipWs rest else rest) with
      | some (v, _) => some v
      | none => if c == ';' then none else lookParam wsNum pc rest
    else if c == ';' then none
    else lookParam wsNum pc rest

/-- One parameter group of `rxG01`/`rxG23`: adjacent match first (advancing),
then lookahead (not advancing), then absent. -/
def getParam (wsNum : Bool) (pc : Char) (s : List Char) :
    Option (List Char) × List Char :=
  match adjParam wsNum pc s with
  | some (v, rest) => (some v, rest)
  | none =>
    match lookParam wsNum pc s with
    | some v => (some v, s)
    | none => (none, s)

/-- `rxG01`: `^\s*G\s*[01](?=\D)` followed by the optional parameter groups
`X Y E Z F` (whitespace allowed between letter and number). -/
def parseG01? (line : List Char) : Option CommonGCodeCommand :=
  match skipWs line with
  | [] => none
  | c :: rest =>
    if ciEq c 'G' then
      match skipWs rest with
      | [] => none
      | d :: rest2 =>
        if d == '0' || d == '1' then
          match rest2 with
          | [] => none
          | la :: _ =>
            if la.isDigit then none
            else
              let px := getParam true 'X' rest2
              let py := getParam true 'Y' px.2
              let pe := getParam true 'E' py.2
              let pz := getParam true 'Z' pe.2
              let pf := getParam true 'F' pz.2
              some { letter := 'G', value := "1",
                     x := px.1.map String.mk, y := py.1.map String.mk,
                     e := pe.1.map String.mk, z := pz.1.map String.mk,
                     f := pf.1.map String.mk }
        else none
    else none

/-- `rxG23`: `^\s*G\s*([23])(?=\D)` followed by the optional parameter groups
`X Y I J E Z F` (no whitespace between letter and number). -/
def parseG23? (line : List Char) : Option CommonGCodeCommand :=
  match skipWs line with
  | [] => none
  | c :: rest =>
    if ciEq c 'G' then
      match skipWs rest with
      | [] => none
      | d :: rest2 =>
        if d == '2' || d == '3' then
          match rest2 with
          | [] => none
          | la :: _ =>
            if la.isDigit then none
            else
              let px := getParam false 'X' rest2
              let py := getParam false 'Y' px.2
              let pi := getParam false 'I' py.2
              let pj := getParam false 'J' pi.2
              let pe := getParam false 'E' pj.2
              let pz := getParam false 'Z' pe.2
              let pf := getParam false 'F' pz.2
              some { letter := 'G', value := String.mk [d],
                     x := px.1.map String.mk, y := py.1.map String.mk,
                     i := pi.1.map String.mk, j := pj.1.map String.mk,
                     e := pe.1.map String.mk, z := pz.1.map String.mk,
                     f := pf.1.map String.mk }
        else none
    else none

/-- `rxT`: `^\s*T\s*(\d+)`. -/
def parseT? (line : List Char) : Option CommonGCodeCommand :=
  match skipWs line with
  | [] => none
  | c :: rest =>
    if ciEq c 'T' then
      match takeDigits (skipWs rest) with
      | ([], _) => none
      | (ds, _) => some { letter := 'T', value := String.mk ds }
    else none

/-- `parseCommonGCodeCommandLine`: try `rxG01`, then `rxG23`, then `rxT`. -/
def parseCommonGCodeCommandLine (line : String) : Option CommonGCodeCommand :=
  match parseG01? line.toList with
  | some cmd => some cmd
  | none =>
    match parseG23? line.toList with
    | some cmd => some cmd
    | none => parseT? line.toList

example :
    parseCommonGCodeCommandLine "G1 X10.5 Y-3 E.5 F3000 ; note" =
      some { letter := 'G', value := "1", x := some "10.5", y := some "-3",
             e := some ".5", f := some "3000" } := by decide

example :
    parseCommonGCodeCommandLine "G0 Z0.4" =
      some { letter := 'G', value := "1", z := some "0.4" } := by decide

example :
    parseCommonGCodeCommandLine "G2 X100 Y100 I10 J0 E1" =
      some { letter := 'G', value := "2", x := some "100", y := some "100",
             i := some "10", j := some "0", e := some "1" } := by decide

example :
    parseCommonGCodeCommandLine "T1" =
      some { letter := 'T', value := "1" } := by decide

example : parseCommonGCodeCommandLine "M104 S210" = none := by decide

example : parseCommonGCodeCommandLine "; G1 X5" = none := by decide

example : parseCommonGCodeCommandLine "G1 ; X5" =
    some { letter := 'G', value := "1" } := by decide

/-! ### Semantic versions

`semver` versions as used by the facade (`semver.coerce` yields plain
`major.minor.patch` triples; comparisons are lexicographic). -/

/-- A coerced semantic version: a `major.minor.patch` triple. -/
structure SemVerM where
  major : Nat
  minor : Nat
  patch : Nat
deriving Repr, DecidableEq

/-- `semver.lt`: lexicographic order on version triples. -/
def semLt (a b : SemVerM) : Bool :=
  decide (a.major < b.major ∨ (a.major = b.major ∧
    (a.minor < b.minor ∨ (a.minor = b.minor ∧ a.patch < b.patch))))

/-- `SemVer.toString` for coerced versions. -/
def semToString (v : SemVerM) : String :=
  toString v.major ++ "." ++ toString v.minor ++ "." ++ toString v.patch

theorem semLt_trichotomy (a b : SemVerM) :
    a = b ∨ semLt a b = true ∨ semLt b a = true := by
  cases a with
  | mk am an ap =>
    cases b with
    | mk bm bn bp =>
      simp only [semLt, SemVerM.mk.injEq, decide_eq_true_eq]
      omega

/-! ### The printability decision (`GCodeFile.inspect`)

`GCodeFile.inspect` reads the file header, optionally fixes up legacy files
(setting `postProcessorVersion` to the legacy placeholder and
`fileFormatVersion` to `0`), accumulates a list of reasons, and classifies
printability.  The model below takes the header-derived data — after the
legacy fix-up — as input.  `validateGenerator` is called through its
behaviour only (does it throw for this header?), which the model carries as
the boolean `generatorSupported`. -/

/-- The printability classification (`Printability.ts`). -/
inductive PrintabilityM
  | UNKNOWN
  | NOT_SUPPORTED
  | MUST_PROCESS
  | READY
  | COULD_REPROCESS
  | MUST_REPROCESS
deriving Repr, DecidableEq

/-- One entry of the `reasons` list accumulated by `GCodeFile.inspect`;
constructors stand for the distinct reason strings pushed by the source. -/
inductive InspectReason
  | unsupportedSlicer
  | formatTooOld
  | formatTooNew
  | idexTrueTargetFalse
  | idexFalseTargetTrue
  | idexUnknown
  | newerHost
  | olderMajor
  | bugFixes
  | enhancements
deriving Repr, DecidableEq

/-- `GCodeFile.FILE_FORMAT_VERSION`. -/
def FILE_FORMAT_VERSION : Nat := 3

/-- Header-derived data consumed by the printability decision of
`GCodeFile.inspect` (fields of `MutableGCodeInfo` and the relevant options),
after the legacy tail fix-up has been applied. -/
structure InspectInput where
  /-- Whether `validateGenerator(gci, false)` succeeds for this header. -/
  generatorSupported : Bool
  allowUnsupportedSlicerVersions : Bool
  fileFormatVersion : Option Nat
  processedForIdex : Option Bool
  postProcessorVersion : Option SemVerM
  printerHasIdex : Bool
  /-- `getPostProcessorVersion()`, the version of the installed host code. -/
  currentVersion : SemVerM

/-- Modelled from the spec: `MutableGCodeInfo.isProcessed` is not part of the
snapshot (`GCodeInfo.ts` of the inspected revision is missing); per the spec,
a file is processed exactly when a `processed by` header line was parsed,
i.e. when `postProcessorVersion` is present (the source asserts
`gci.postProcessorVersion` right after this test). -/
def InspectInput.isProcessed (g : InspectInput) : Bool :=
  g.postProcessorVersion.isSome

/-- The `reasons` list accumulated by `GCodeFile.inspect` before the
printability classification (unsupported slicer version under strict mode;
file format older/newer than `FILE_FORMAT_VERSION`). -/
def inspectReasons (g : InspectInput) : List InspectReason :=
  (if !g.allowUnsupportedSlicerVersions && !g.generatorSupported then
    [.unsupportedSlicer] else []) ++
  (match g.fileFormatVersion with
   | some v =>
     if v < FILE_FORMAT_VERSION then [.formatTooOld]
     else if v > FILE_FORMAT_VERSION then [.formatTooNew]
     else []
   | none => [])

/-- The printability decision of `GCodeFile.inspect`, with the reasons list,
translated from `GCodeFile.ts` lines 180–303. -/
def inspect (g : InspectInput) : PrintabilityM × List InspectReason :=
  if (inspectReasons g).length > 0 then (.NOT_SUPPORTED, inspectReasons g)
  else if g.isProcessed then
    if g.processedForIdex ≠ some g.printerHasIdex then
      (.MUST_REPROCESS, inspectReasons g ++
        [match g.processedForIdex with
         | some true => .idexTrueTargetFalse
         | some false => .idexFalseTargetTrue
         | none => .idexUnknown])
    else
      match g.postProcessorVersion with
      | some pv =>
        if g.currentVersion = pv then (.READY, inspectReasons g)
        else if semLt g.currentVersion pv then
          (.MUST_REPROCESS, inspectReasons g ++ [.newerHost])
        else if pv.major < g.currentVersion.major then
          (.MUST_REPROCESS, inspectReasons g ++ [.olderMajor])
        else
          (.COULD_REPROCESS, inspectReasons g ++
            [if g.currentVersion.minor = pv.minor then .bugFixes
             else .enhancements])
      | none =>
        -- Unreachable: `isProcessed` means `postProcessorVersion` is present
        -- (the source has `assert(gci.postProcessorVersion)` here).
        (.UNKNOWN, inspectReasons g)
  else
    (if g.printerHasIdex then .MUST_PROCESS else .READY, inspectReasons g)

/-- Row 1 of the claim decision table: unsupported slicer version under
strict mode, or file-format version older or newer than the current
format. -/
def claimRowNotSupported (g : InspectInput) : Bool :=
  (!g.allowUnsupportedSlicerVersions && !g.generatorSupported) ||
  (match g.fileFormatVersion with
   | some v =>
     decide (v < FILE_FORMAT_VERSION) || decide (FILE_FORMAT_VERSION < v)
   | none => false)

/-- The printability decision table as the claim words it, with each row
condition written out self-containedly, evaluated in order with first match
winning. -/
def claimDecisionTable (g : InspectInput) : PrintabilityM :=
  if claimRowNotSupported g then .NOT_SUPPORTED
  else if g.isProcessed && (g.processedForIdex != some g.printerHasIdex) then
    .MUST_REPROCESS
  else
    match g.postProcessorVersion with
    | some pv =>
      if pv = g.currentVersion then .READY
      else if semLt g.currentVersion pv then .MUST_REPROCESS
      else if semLt pv g.currentVersion &&
          decide (pv.major < g.currentVersion.major) then
        .MUST_REPROCESS
      else if semLt pv g.currentVersion &&
          decide (pv.major = g.currentVersion.major) then
        .COULD_REPROCESS
      else .UNKNOWN
    | none => if g.printerHasIdex then .MUST_PROCESS else .READY

theorem semLt_irrefl (a : SemVerM) : semLt a a = false := by
  simp only [semLt, decide_eq_false_iff_not]
  omega

theorem semLt_asymm {a b : SemVerM} (h : semLt a b = true) :
    semLt b a = false := by
  simp only [semLt, decide_eq_true_eq] at h
  simp only [semLt, decide_eq_false_iff_not]
  omega

theorem semLt_ne {a b : SemVerM} (h : semLt a b = true) : a ≠ b := by
  intro he
  subst he
  simp [semLt_irrefl] at h

theorem semLt_major {a b : SemVerM} (h : semLt a b = true) :
    a.major < b.major ∨ a.major = b.major := by
  simp only [semLt, decide_eq_true_eq] at h
  omega

theorem inspectReasons_length_pos (g : InspectInput) :
    ((inspectReasons g).length > 0) ↔ claimRowNotSupported g = true := by
  rcases g with ⟨gs, allow, ffv, pfi, ppv, idex, cv⟩
  cases gs <;> cases allow <;> rcases ffv with _ | v <;>
    simp [inspectReasons, claimRowNotSupported, FILE_FORMAT_VERSION] <;>
    split_ifs <;> simp_all <;> omega

/-- **C1.** `GCodeFile.inspect` assigns printability by the decision table in
order with first match winning: unsupported slicer version under strict mode
or a file-format version older or newer than the current format yields
`NOT_SUPPORTED`; a processed file whose recorded IDEX flag differs from the
target yields `MUST_REPROCESS`; processed by the same post-processor version
yields `READY`; processed by a newer version than the host yields
`MUST_REPROCESS`; processed by an older major version yields
`MUST_REPROCESS`; processed by an older minor or patch version yields
`COULD_REPROCESS`; an unprocessed file yields `MUST_PROCESS` when the target
printer has IDEX and `READY` otherwise. -/
theorem inspect_printability_decision_table (g : InspectInput) :
    (inspect g).1 = claimDecisionTable g := by
  by_cases h1 : (inspectReasons g).length > 0
  · have h1' : claimRowNotSupported g = true :=
      (inspectReasons_length_pos g).mp h1
    simp [inspect, claimDecisionTable, h1, h1']
  · have h1' : claimRowNotSupported g = false := by
      rcases Bool.eq_false_or_eq_true (claimRowNotSupported g) with h | h
      · exact absurd ((inspectReasons_length_pos g).mpr h) h1
      · exact h
    rcases hp : g.postProcessorVersion with _ | pv
    · have hproc : g.isProcessed = false := by
        simp [InspectInput.isProcessed, hp]
      simp [inspect, claimDecisionTable, h1, h1', hp, hproc]
    · have hproc : g.isProcessed = true := by
        simp [InspectInput.isProcessed, hp]
      by_cases h2 : g.processedForIdex = some g.printerHasIdex
      · rcases semLt_trichotomy g.currentVersion pv with h3 | h3 | h3
        · simp [inspect, claimDecisionTable, h1, h1', hp, hproc, h2, ← h3,
                semLt_irrefl]
        · have hne : pv ≠ g.currentVersion := (semLt_ne h3).symm
          simp [inspect, claimDecisionTable, h1, h1', hp, hproc, h2, h3,
                semLt_ne h3, hne]
        · have hne : pv ≠ g.currentVersion := semLt_ne h3
          have hne' : g.currentVersion ≠ pv := hne.symm
          have hasym : semLt g.currentVersion pv = false := semLt_asymm h3
          rcases semLt_major h3 with h4 | h4
          · simp [inspect, claimDecisionTable, h1, h1', hp, hproc, h2, h3,
                  hne, hne', hasym, h4]
          · have h4' : ¬ pv.major < g.currentVersion.major := by omega
            simp [inspect, claimDecisionTable, h1, h1', hp, hproc, h2, h3,
                  hne, hne', hasym, h4, h4']
      · simp [inspect, claimDecisionTable, h1, h1', hp, hproc, h2,
              bne_iff_ne]

/-! ### Generator validation (`Actions.ts`, `getGcodeInfo` lines 88–156)

After parsing the header, `getGcodeInfo` checks the generator version
against a per-flavour allow-list inside a `try` block; a thrown
`SlicerNotSupported` is converted into a warning when
`kAllowUnsupportedSlicerVersions` is set *and* an `onWarning` sink is
present, and any other exception is rethrown.  `semver.satisfies` against
the range `2.8.0 || 2.8.1` (and the analogous ranges of the other flavours)
amounts to equality with one of the listed triples.  The RatOS branch calls
`semver.neq('0.1', parsed.generatorVersion)`: unlike a *range*, the version
argument `'0.1'` of the comparison function must be a full semver version,
so `semver.neq` throws `TypeError('Invalid Version: 0.1')` before any
comparison happens — on every RatOS-flavour header, whatever the version —
and a `TypeError` is not a `SlicerNotSupported`, so the `catch` rethrows it
even when unsupported-slicer leniency is enabled. -/

/-- `GCodeFlavour` (bit-set in the source; only single flavours reach the
validation switch). -/
inductive FlavourM
  | Unknown
  | PrusaSlicer
  | OrcaSlicer
  | SuperSlicer
  | RatOS
deriving Repr, DecidableEq

/-- A single-quote character, used in source error messages. -/
def sq : String := String.mk [Char.ofNat 39]

/-- Outcome of the version check of `getGcodeInfo` (the `try`/`catch` around
the flavour `switch`).  `typeError` is an exception other than
`SlicerNotSupported` escaping the `catch`. -/
inductive ValidateOutcome
  | ok
  | warned (code msg : String)
  | slicerNotSupported (msg : String)
  | typeError (msg : String)
deriving Repr, DecidableEq

/-- An exception thrown inside the flavour `switch` of `getGcodeInfo`. -/
inductive ThrownError
  | slicerNotSupported (msg : String)
  | typeError (msg : String)
deriving Repr, DecidableEq

/-- The exception thrown by the flavour `switch` of `getGcodeInfo`, or
`none` when the version passes.  (The `OrcasSlicer` spelling reproduces the
source.)  The RatOS branch calls `semver.neq('0.1', v)`; `'0.1'` is not a
valid semver *version* (only ranges admit partials), so `semver.neq` throws
`TypeError('Invalid Version: 0.1')` before comparing, on every input. -/
def validateThrown (flavour : FlavourM) (generator : String)
    (genVersion : SemVerM) : Option ThrownError :=
  match flavour with
  | .Unknown =>
    some (.slicerNotSupported ("Slicer " ++ sq ++ generator ++ sq ++
      " is not supported, and RatOS dialect conformance was not declared."))
  | .PrusaSlicer =>
    if genVersion = ⟨2, 8, 0⟩ ∨ genVersion = ⟨2, 8, 1⟩ then none
    else some (.slicerNotSupported
      ("Only versions 2.8.0 and 2.8.1 of PrusaSlicer are supported. Version " ++
      semToString genVersion ++ " is not supported."))
  | .OrcaSlicer =>
    if genVersion = ⟨2, 1, 1⟩ ∨ genVersion = ⟨2, 2, 0⟩ then none
    else some (.slicerNotSupported
      ("Only versions 2.1.1 and 2.2.0 of OrcasSlicer are supported. Version " ++
      semToString genVersion ++ " is not supported."))
  | .SuperSlicer =>
    if genVersion = ⟨2, 5, 59⟩ ∨ genVersion = ⟨2, 5, 60⟩ then none
    else some (.slicerNotSupported
      ("Only versions 2.5.59 and 2.5.60 of SuperSlicer are supported. Version " ++
      semToString genVersion ++ " is not supported."))
  | .RatOS =>
    some (.typeError "Invalid Version: 0.1")

/-- The `try`/`catch` of `getGcodeInfo`: a thrown `SlicerNotSupported`
becomes a warning when `kAllowUnsupportedSlicerVersions` is set and an
`onWarning` sink exists, and propagates otherwise; any other exception
(`ex instanceof SlicerNotSupported` fails) is rethrown unconditionally. -/
def getGcodeInfoValidate (flavour : FlavourM) (generator : String)
    (genVersion : SemVerM) (allowUnsupported hasWarningSink : Bool) :
    ValidateOutcome :=
  match validateThrown flavour generator genVersion with
  | none => .ok
  | some (.slicerNotSupported m) =>
    if allowUnsupported && hasWarningSink then
      .warned "UNSUPPORTED_SLICER_VERSION"
        (m ++ " This may result in print defects and incorrect operation of the printer.")
    else .slicerNotSupported m
  | some (.typeError m) => .typeError m

/-- The per-flavour allow-list exactly as claim C1 words it, with PrusaSlicer
given as *the 2.8.x range*. -/
def claimAllowListC3 (flavour : FlavourM) (v : SemVerM) : Prop :=
  match flavour with
  | .Unknown => False
  | .PrusaSlicer => v.major = 2 ∧ v.minor = 8
  | .OrcaSlicer => v = ⟨2, 1, 1⟩ ∨ v = ⟨2, 2, 0⟩
  | .SuperSlicer => v = ⟨2, 5, 59⟩ ∨ v = ⟨2, 5, 60⟩
  | .RatOS => v = ⟨0, 1, 0⟩

/-- The per-flavour allow-list as the source implements it: PrusaSlicer
`2.8.0 || 2.8.1` only.  No RatOS-dialect version passes: the RatOS branch
throws `TypeError` before comparing. -/
def codeAllowList (flavour : FlavourM) (v : SemVerM) : Prop :=
  match flavour with
  | .Unknown => False
  | .PrusaSlicer => v = ⟨2, 8, 0⟩ ∨ v = ⟨2, 8, 1⟩
  | .OrcaSlicer => v = ⟨2, 1, 1⟩ ∨ v = ⟨2, 2, 0⟩
  | .SuperSlicer => v = ⟨2, 5, 59⟩ ∨ v = ⟨2, 5, 60⟩
  | .RatOS => False

instance (flavour : FlavourM) (v : SemVerM) :
    Decidable (claimAllowListC3 flavour v) := by
  cases flavour <;> simp only [claimAllowListC3] <;> infer_instance

instance (flavour : FlavourM) (v : SemVerM) :
    Decidable (codeAllowList flavour v) := by
  cases flavour <;> simp only [codeAllowList] <;> infer_instance

/-- **C3, counterexample.** PrusaSlicer 2.8.2 is in the claimed allow-list
(*the 2.8.x range*) and strict mode is in effect, yet `getGcodeInfo` raises
`SlicerNotSupported`: the claim that the error is raised *exactly when the
generator version is outside the allow-list* fails at this input. -/
theorem getGcodeInfo_rejects_prusa_282 :
    claimAllowListC3 .PrusaSlicer ⟨2, 8, 2⟩ ∧
    getGcodeInfoValidate .PrusaSlicer "PrusaSlicer" ⟨2, 8, 2⟩ false false =
      .slicerNotSupported
        "Only versions 2.8.0 and 2.8.1 of PrusaSlicer are supported. Version 2.8.2 is not supported." := by
  constructor
  · exact ⟨rfl, rfl⟩
  · rfl

/-- **C3, amended.** For every identified generator header of a known
slicer flavour (PrusaSlicer, OrcaSlicer or SuperSlicer), `getGcodeInfo`
raises `SlicerNotSupported` exactly when the generator version is outside
the per-flavour allow-list (PrusaSlicer 2.8.0 or 2.8.1, OrcaSlicer 2.1.1 or
2.2.0, SuperSlicer 2.5.59 or 2.5.60) and it is not the case that the
allow-unsupported flag is set with a warning sink provided; when the
version is outside the list and the flag is set with a sink available, a
warning is emitted instead and processing continues; a version in the list
passes silently.  For the RatOS dialect, however, the version check itself
calls `semver.neq` with the invalid version literal `'0.1'`, which throws
`TypeError('Invalid Version: 0.1')` on every header before any comparison;
a `TypeError` is not a `SlicerNotSupported`, so it escapes the `catch`
whatever the flags: no RatOS-dialect file is ever accepted or reported as
`SlicerNotSupported`. -/
theorem getGcodeInfoValidate_characterisation (flavour : FlavourM)
    (generator : String) (v : SemVerM) (allowUnsupported hasWarningSink : Bool)
    (hf : flavour ≠ .Unknown) :
    (flavour ≠ .RatOS →
      ((∃ m, getGcodeInfoValidate flavour generator v allowUnsupported hasWarningSink =
          .slicerNotSupported m) ↔
        (¬ codeAllowList flavour v ∧ ¬ (allowUnsupported = true ∧ hasWarningSink = true))) ∧
      ((∃ c m, getGcodeInfoValidate flavour generator v allowUnsupported hasWarningSink =
          .warned c m) ↔
        (¬ codeAllowList flavour v ∧ allowUnsupported = true ∧ hasWarningSink = true)) ∧
      (getGcodeInfoValidate flavour generator v allowUnsupported hasWarningSink = .ok ↔
        codeAllowList flavour v)) ∧
    (flavour = .RatOS →
      getGcodeInfoValidate flavour generator v allowUnsupported hasWarningSink =
        .typeError "Invalid Version: 0.1") := by
  cases flavour <;> try exact absurd rfl hf
  case RatOS =>
    refine ⟨fun h => absurd rfl h, fun _ => rfl⟩
  all_goals
    refine ⟨fun _ => ?_, fun h => by simp at h⟩
  all_goals
    cases allowUnsupported <;> cases hasWarningSink <;>
      simp [getGcodeInfoValidate, validateThrown, codeAllowList] <;>
      split_ifs <;> simp_all <;> tauto

/-- **C3, amended — witness**: OrcaSlicer 2.1.1 in strict mode is in the
allow-list and passes; a RatOS-dialect header at the nominally supported
version 0.1.0, even with leniency enabled and a sink present, gets the
`TypeError`, not acceptance or `SlicerNotSupported`. -/
theorem getGcodeInfoValidate_witness :
    (getGcodeInfoValidate .OrcaSlicer "OrcaSlicer" ⟨2, 1, 1⟩ false false = .ok) ∧
    (getGcodeInfoValidate .RatOS "RatOS" ⟨0, 1, 0⟩ true true =
      .typeError "Invalid Version: 0.1") :=
  ⟨(((getGcodeInfoValidate_characterisation .OrcaSlicer "OrcaSlicer" ⟨2, 1, 1⟩
      false false (by decide)).1 (by decide)).2.2).mpr (by simp [codeAllowList]),
   (getGcodeInfoValidate_characterisation .RatOS "RatOS" ⟨0, 1, 0⟩
      true true (by decide)).2 rfl⟩

/-! ### `getStartPrint` (`Actions.ts` lines 158–203)

The action skips comment lines, matches the `START_PRINT` regex

`/^(START_PRINT)(?=[ $])((?=.*(\sINITIAL_TOOL=(?<INITIAL_TOOL>(\d+))))|)((?=.*(\sEXTRUDER_OTHER_LAYER_TEMP=(?<EXTRUDER_OTHER_LAYER_TEMP>(\d+(,\d+)*))))|)/i`

(case-insensitively; note that the lookahead `(?=[ $])` requires a space or
a literal dollar character after `START_PRINT`, and that the greedy `.*` in
the optional lookaheads captures the *last* occurrence of each key), pads
the line by 250 spaces, bookmarks it and removes itself; a G1/G2/G3/Tn
command before the match is a `GCodeError`; anything else stops the
sequence for this line. -/

/-- `GCodeError` as constructed by `newGCodeError(message, ctx, state)`:
carries the message, the offending line text and the current line number. -/
structure GCodeErrorM where
  message : String
  line : String
  lineNumber : Int
deriving Repr, DecidableEq

/-- `REMOVED_BY_RATOS` (`Actions.ts`). -/
def REMOVED_BY_RATOS : String := "; Removed by RatOS post processor: "

/-- Case-insensitively strip `key` from the head of `s`, returning the rest. -/
def ciStripKey : List Char → List Char → Option (List Char)
  | s, [] => some s
  | [], _ :: _ => none
  | c :: cs, k :: ks => if ciEq c k then ciStripKey cs ks else none

/-- The capture of the *last* occurrence of `\s<key>(\d+)` in `s` (the greedy
`.*` of the regex backtracks from the end of the line). -/
def lastKVDigits (key : List Char) : List Char → Option (List Char)
  | [] => none
  | c :: rest =>
    match lastKVDigits key rest with
    | some v => some v
    | none =>
      if jsIsSpace c then
        match ciStripKey rest key with
        | some afterKey =>
          match takeDigits afterKey with
          | ([], _) => none
          | (ds, _) => some ds
        | none => none
      else none

/-- Continue a greedy match of `\d+(,\d+)*` after its first digit: keep
consuming digits, and consume a comma only when a digit follows it. -/
def csvTail : List Char → List Char
  | [] => []
  | c :: rest =>
    if c.isDigit then c :: csvTail rest
    else if c = ',' then
      match rest with
      | d :: _ => if d.isDigit then c :: csvTail rest else []
      | [] => []
    else []

/-- Greedily match `\d+(,\d+)*` at the head of the input. -/
def takeCsvGroups (s : List Char) : Option (List Char) :=
  match s with
  | c :: rest => if c.isDigit then some (c :: csvTail rest) else none
  | [] => none

/-- The capture of the *last* occurrence of `\s<key>(\d+(,\d+)*)` in `s`. -/
def lastKVCsv (key : List Char) : List Char → Option (List Char)
  | [] => none
  | c :: rest =>
    match lastKVCsv key rest with
    | some v => some v
    | none =>
      if jsIsSpace c then
        match ciStripKey rest key with
        | some afterKey => takeCsvGroups afterKey
        | none => none
      else none

/-- The `START_PRINT` regex of `getStartPrint`: on a match, the captured
`INITIAL_TOOL` digits and `EXTRUDER_OTHER_LAYER_TEMP` list. -/
def startPrintMatch? (line : String) :
    Option (Option String × Option String) :=
  match ciStripKey line.toList "START_PRINT".toList with
  | some (c :: rest') =>
    if c == ' ' || c == '$' then
      some ((lastKVDigits "INITIAL_TOOL=".toList (c :: rest')).map String.mk,
            (lastKVCsv "EXTRUDER_OTHER_LAYER_TEMP=".toList (c :: rest')).map String.mk)
    else none
  | _ => none

/-- Outcome of one `getStartPrint` invocation. -/
inductive StartPrintOutcome
  /-- Line padded by 250 spaces, bookmarked, handle recorded
  (`INITIAL_TOOL` appended to `usedTools`, `EXTRUDER_OTHER_LAYER_TEMP`
  split on commas), action removed (`RemoveAndStop`). -/
  | bookmarked (paddedLine : String) (initialTool : Option String)
      (extruderTemps : Option (List String))
  /-- `GCodeError` thrown. -/
  | errored (e : GCodeErrorM)
  /-- `ActionResult.Stop`: keep looking on subsequent lines. -/
  | stop
deriving Repr, DecidableEq

/-- The `GCodeError` message of `getStartPrint`. -/
def startPrintErrMsg : String :=
  "The START_PRINT command was not found before the first move or toolchange instruction. Please refer to the slicer configuration instructions."

/-- `getStartPrint`, translated from `Actions.ts` lines 158–203. -/
def getStartPrint (line : String) (lineNumber : Int) : StartPrintOutcome :=
  if jsStartsWith line ";" then .stop
  else
    match startPrintMatch? line with
    | some (it, temps) =>
      .bookmarked (jsPadBy line 250) it (temps.map jsSplitComma)
    | none =>
      match parseCommonGCodeCommandLine line with
      | some cmd =>
        if (cmd.letter = 'G' ∧
              (cmd.value = "1" ∨ cmd.value = "2" ∨ cmd.value = "3")) ∨
            cmd.letter = 'T' then
          .errored ⟨startPrintErrMsg, line, lineNumber⟩
        else .stop
      | none => .stop

/-- Does the line begin (case-insensitively) with `START_PRINT` immediately
followed by a space or a literal dollar character?  (The amended-claim
trigger condition.) -/
def startPrintHead (line : String) : Bool :=
  match ciStripKey line.toList "START_PRINT".toList with
  | some (c :: _) => c == ' ' || c == '$'
  | _ => false

/-- Is the line a G1/G2/G3 move or a `Tn` toolchange, per
`parseCommonGCodeCommandLine`? -/
def isMoveOrToolCmd (line : String) : Bool :=
  match parseCommonGCodeCommandLine line with
  | some cmd =>
    decide ((cmd.letter = 'G' ∧
      (cmd.value = "1" ∨ cmd.value = "2" ∨ cmd.value = "3")) ∨ cmd.letter = 'T')
  | none => false

theorem ciStripKey_drop (k : List Char) : ∀ (s r : List Char),
    ciStripKey s k = some r → s.drop k.length = r := by
  induction k with
  | nil => intro s r h; simpa [ciStripKey] using h
  | cons kc ks ih =>
    intro s r h
    cases s with
    | nil => simp [ciStripKey] at h
    | cons c cs =>
      simp only [ciStripKey] at h
      by_cases hc : ciEq c kc = true
      · rw [if_pos hc] at h
        simpa using ih cs r h
      · rw [if_neg hc] at h
        exact absurd h (by simp)

/-- **C4, counterexample.** `RMMU_START_PRINT INITIAL_TOOL=0` is a
non-comment line beginning with `RMMU_START_PRINT`, yet `getStartPrint`
neither bookmarks it nor errors — it just stops for this line: the claim
that `RMMU_START_PRINT` lines are padded, bookmarked and recorded fails. -/
theorem getStartPrint_ignores_rmmu :
    (jsStartsWith "RMMU_START_PRINT INITIAL_TOOL=0" ";" = false) ∧
    (jsStartsWith "RMMU_START_PRINT INITIAL_TOOL=0" "RMMU_START_PRINT" = true) ∧
    getStartPrint "RMMU_START_PRINT INITIAL_TOOL=0" 7 = .stop := by
  refine ⟨by decide, by decide, ?_⟩
  decide

/-- **C4, amended.** For every non-comment line beginning case-insensitively
with `START_PRINT` immediately followed by a space or a literal `$`,
`getStartPrint` pads the line with 250 trailing spaces, bookmarks it,
records the handle (with the last `INITIAL_TOOL` digits appended to
`used_tools` and the last `EXTRUDER_OTHER_LAYER_TEMP` value split on commas),
and removes itself; and for every G1, G2, G3 or Tn command line encountered
before such a line, it raises a `GCodeError` identifying the offending
line. -/
theorem getStartPrint_behaviour (line : String) (n : Int)
    (hc : jsStartsWith line ";" = false) :
    (startPrintHead line = true →
      getStartPrint line n = .bookmarked (line ++ spaces 250)
        ((lastKVDigits "INITIAL_TOOL=".toList
            (line.toList.drop "START_PRINT".length)).map String.mk)
        (((lastKVCsv "EXTRUDER_OTHER_LAYER_TEMP=".toList
            (line.toList.drop "START_PRINT".length)).map String.mk).map
          jsSplitComma)) ∧
    (startPrintHead line = false → isMoveOrToolCmd line = true →
      getStartPrint line n = .errored ⟨startPrintErrMsg, line, n⟩) := by
  constructor
  · intro hh
    have hs : ∃ c rest', ciStripKey line.toList "START_PRINT".toList =
        some (c :: rest') ∧ (c == ' ' || c == '$') = true := by
      unfold startPrintHead at hh
      rcases hstrip : ciStripKey line.toList "START_PRINT".toList with _ | ⟨_ | ⟨c, rest'⟩⟩
      · rw [hstrip] at hh; simp at hh
      · rw [hstrip] at hh; simp at hh
      · rw [hstrip] at hh
        exact ⟨c, rest', rfl, hh⟩
    rcases hs with ⟨c, rest', hstrip, hcs⟩
    have hdrop : line.toList.drop "START_PRINT".length = c :: rest' := by
      have h := ciStripKey_drop "START_PRINT".toList line.toList (c :: rest') hstrip
      simpa using h
    have hdrop' : List.drop "START_PRINT".length line.data = c :: rest' := hdrop
    unfold getStartPrint startPrintMatch?
    rw [hc, hstrip]
    simp [hcs, jsPadBy, hdrop, hdrop']
  · intro hh hm
    have hs : startPrintMatch? line = none := by
      unfold startPrintMatch?
      unfold startPrintHead at hh
      rcases hstrip : ciStripKey line.toList "START_PRINT".toList with _ | ⟨_ | ⟨c, rest'⟩⟩
      · rfl
      · rfl
      · rw [hstrip] at hh
        simp only [] at hh
        simp at hh
        simp [hh]
    unfold getStartPrint
    rw [hc, hs]
    unfold isMoveOrToolCmd at hm
    rcases hp : parseCommonGCodeCommandLine line with _ | cmd
    · rw [hp] at hm; simp at hm
    · rw [hp] at hm
      simp only [decide_eq_true_eq] at hm
      simp [hp, hm]

/-- **C4, amended — witness** on a concrete `START_PRINT` line and a
concrete premature `G1` move. -/
theorem getStartPrint_behaviour_witness :
    (getStartPrint "START_PRINT EXTRUDER_TEMP=240 INITIAL_TOOL=1 EXTRUDER_OTHER_LAYER_TEMP=210,215" 42 =
      .bookmarked
        ("START_PRINT EXTRUDER_TEMP=240 INITIAL_TOOL=1 EXTRUDER_OTHER_LAYER_TEMP=210,215" ++ spaces 250)
        (some "1") (some ["210", "215"])) ∧
    (getStartPrint "G1 X5 Y5" 3 = .errored ⟨startPrintErrMsg, "G1 X5 Y5", 3⟩) := by
  constructor
  · have h := (getStartPrint_behaviour
      "START_PRINT EXTRUDER_TEMP=240 INITIAL_TOOL=1 EXTRUDER_OTHER_LAYER_TEMP=210,215" 42
      (by decide)).1 (by decide)
    rw [h]
    decide
  · exact (getStartPrint_behaviour "G1 X5 Y5" 3 (by decide)).2 (by decide) (by decide)

/-! ### `processToolchange` (`Actions.ts` lines 284–422)

The action applies to `Tn` lines inside the common-commands subsequence.
The first toolchange of the file is commented out; later ones are rewritten
to an atomic toolshift using a backward scan (retract/z-hop redaction,
skipped when a purge tower is present) and a forward scan (capture of the
destination move, E/Z redaction).

The window contexts are modelled as two string lists: `back` holds the
lines at offsets −1, −2, … and `fwd` the lines at offsets 1, 2, ….
`scanBack(n)`/`scanForward(n)` and `prepend` belong to the revision of
`SlidingWindowLineProcessor.ts` that is not part of the snapshot and are
modelled from the spec: the scans yield the contexts at offsets up to `n`
away, in order, stopping at the window edge, and `prepend` prefixes the
line's text; `getLine` (present in the snapshot) throws a `RangeError`
outside the window. -/

/-- An error escaping `processToolchange`. -/
inductive ToolchangeError
  | gcode (e : GCodeErrorM)
  /-- `RangeError` from `ProcessLineContext.getLine` outside the window. -/
  | rangeError (msg : String)
deriving Repr, DecidableEq

/-- JS template-literal interpolation of a possibly-`undefined` string. -/
def optUndef (o : Option String) : String :=
  match o with
  | some v => v
  | none => "undefined"

/-- The backward scan of `processToolchange` (no purge tower): walk up to 19
lines back; stop on any XY move; comment out every G1 E/Z move unless one of
the two lines directly behind it starts with `;WIPE_END`.  Returns the
marked indices into `back` and whether a stop was found; `remaining` is the
number of scan steps left (19 at the start), `i` the current index. -/
def backGo (back : List String) : Nat → Nat → List Nat →
    Except ToolchangeError (List Nat × Bool)
  | _, 0, marks => .ok (marks, false)
  | i, remaining + 1, marks =>
    if h : i < back.length then
      match parseCommonGCodeCommandLine (back.get ⟨i, h⟩) with
      | some cmd =>
        if cmd.letter = 'G' ∧ cmd.value = "1" then
          if cmd.x.isSome ∨ cmd.y.isSome then .ok (marks, true)
          else if cmd.e.isSome ∨ cmd.z.isSome then
            -- `!scan.getLine(-1).line.startsWith(';WIPE_END') &&
            --  !scan.getLine(-2).line.startsWith(';WIPE_END')`,
            -- evaluated left to right with short-circuiting.
            if h1 : i + 1 < back.length then
              if jsStartsWith (back.get ⟨i + 1, h1⟩) ";WIPE_END" then
                backGo back (i + 1) remaining marks
              else if h2 : i + 2 < back.length then
                if jsStartsWith (back.get ⟨i + 2, h2⟩) ";WIPE_END" then
                  backGo back (i + 1) remaining marks
                else backGo back (i + 1) remaining (marks ++ [i])
              else .error (.rangeError "The specified offset is outside the available window.")
            else .error (.rangeError "The specified offset is outside the available window.")
          else backGo back (i + 1) remaining marks
        else backGo back (i + 1) remaining marks
      | none => backGo back (i + 1) remaining marks
    else .ok (marks, false)

/-- State of the forward scan of `processToolchange`. -/
structure FwdState where
  xy : Option CommonGCodeCommand := none
  z : Option CommonGCodeCommand := none
  zc1 : Nat := 0
  zc2 : Nat := 0
  foundStop : Bool := false
  /-- Lines of the scanned window, after any redaction, in order. -/
  acc : List String := []
  /-- Index into `acc` of the candidate last Z move (`prevZMove`). -/
  prevZ : Option Nat := none
deriving Repr, DecidableEq

/-- The forward scan of `processToolchange`: note the first XY move, stop on
a second one; with no purge tower, comment out every E move and all but the
last Z move, counting Z moves before (`zc1`) and after (`zc2`) the first XY
move. -/
def fwdGo (hasPurge : Bool) : FwdState → List String → FwdState
  | st, [] => st
  | st, l :: rest =>
    match parseCommonGCodeCommandLine l with
    | some cmd =>
      if cmd.letter = 'G' ∧ cmd.value = "1" then
        if (cmd.x.isSome ∨ cmd.y.isSome) ∧ st.xy.isSome then
          -- Stop on any XY move after the first one; the rest of the
          -- window is left untouched.
          { st with foundStop := true, acc := st.acc ++ (l :: rest) }
        else
          let st1 :=
            if cmd.x.isSome ∨ cmd.y.isSome then { st with xy := some cmd }
            else st
          if hasPurge then
            fwdGo hasPurge { st1 with acc := st1.acc ++ [l] } rest
          else if cmd.e.isSome then
            fwdGo hasPurge
              { st1 with acc := st1.acc ++ [REMOVED_BY_RATOS ++ l] } rest
          else if cmd.z.isSome then
            let acc1 :=
              match st1.prevZ with
              | some k => st1.acc.set k (REMOVED_BY_RATOS ++ st1.acc.getD k "")
              | none => st1.acc
            fwdGo hasPurge
              { st1 with
                z := some cmd
                prevZ := some acc1.length
                acc := acc1 ++ [l]
                zc1 := if st1.xy.isNone then st1.zc1 + 1 else st1.zc1
                zc2 := if st1.xy.isNone then st1.zc2 else st1.zc2 + 1 } rest
          else fwdGo hasPurge { st1 with acc := st1.acc ++ [l] } rest
      else fwdGo hasPurge { st with acc := st.acc ++ [l] } rest
    | none => fwdGo hasPurge { st with acc := st.acc ++ [l] } rest

/-- Result of `processToolchange` on one line. -/
structure ToolchangeOut where
  /-- The (possibly rewritten) current line. -/
  line : String
  /-- The behind window after any redaction. -/
  back : List String
  /-- The ahead window after any redaction. -/
  fwd : List String
  toolChangeCount : Nat
  usedTools : List String
  hasPurgeTower : Option Bool
  /-- Messages passed to `state.onWarning`, in order. -/
  warnings : List String
  /-- Whether the action returned `ActionResult.Stop`. -/
  stop : Bool
deriving Repr, DecidableEq

/-- The scan-back heuristic-smell warning. -/
def backSmellMsg (n : Int) : String :=
  "End of scan back before toolchange at line " ++ toString n ++
  " reached without detecting end condition."

/-- The scan-forward heuristic-smell warning. -/
def fwdSmellMsg (n : Int) : String :=
  "End of scan forward after toolchange at line " ++ toString n ++
  " reached without detecting end condition."

/-- The more-than-two-z-moves heuristic-smell warning. -/
def zSmellMsg (n : Int) : String :=
  "Detected a group with more than two z moves after toolchange at line " ++
  toString n ++ "."

/-- The `GCodeError` message for a missing destination move. -/
def noXYMsg : String := "Failed to detect XY move after toolchange."

/-- The purge/wipe-tower detection of `processToolchange`: the memoised
`state.hasPurgeTower` when set, else a scan back of up to 100 lines for
`; CP TOOLCHANGE START`. -/
def purgeDetect (purge0 : Option Bool) (back : List String) : Bool :=
  match purge0 with
  | some b => b
  | none =>
    (back.take 100).any (fun l => jsStartsWith l "; CP TOOLCHANGE START")

/-- `processToolchange`, translated from `Actions.ts` lines 284–422.
`cnt`/`usedTools`/`purge0` are the fields `toolChangeCount`, `usedTools` and
`hasPurgeTower` of the state on entry, `lineNumber` is
`state.currentLineNumber`. -/
def processToolchange (cnt : Nat) (usedTools : List String)
    (purge0 : Option Bool) (lineNumber : Int) (line : String)
    (back fwd : List String) : Except ToolchangeError ToolchangeOut :=
  match parseCommonGCodeCommandLine line with
  | none => .ok ⟨line, back, fwd, cnt, usedTools, purge0, [], false⟩
  | some cmd =>
    if cmd.letter = 'T' then
      let tool := cmd.value
      if cnt + 1 = 1 then
        -- Remove first toolchange.
        .ok ⟨REMOVED_BY_RATOS ++ line, back, fwd, 1, usedTools, purge0, [], true⟩
      else
        let used :=
          if tool ∈ usedTools then usedTools else usedTools ++ [tool]
        -- Detect purge/wipe tower once (scan back up to 100 lines).
        let hasPurge := purgeDetect purge0 back
        -- BEFORE TOOLCHANGE (skipped if a purge tower is used):
        let backRes : Except ToolchangeError (List String × List String) :=
          if hasPurge then .ok (back, [])
          else
            match backGo back 0 19 [] with
            | .error e => .error e
            | .ok (marks, foundStop) =>
              .ok ((List.range back.length).zipWith
                    (fun k l => if k ∈ marks then REMOVED_BY_RATOS ++ l else l)
                    back,
                   if foundStop then [] else [backSmellMsg lineNumber])
        match backRes with
        | .error e => .error e
        | .ok (backLines, backWarns) =>
          -- AFTER TOOLCHANGE:
          let fs := fwdGo hasPurge {} (fwd.take 19)
          let fwdWarns :=
            (if fs.foundStop then [] else [fwdSmellMsg lineNumber]) ++
            (if 2 < fs.zc1 ∨ 2 < fs.zc2 then [zSmellMsg lineNumber] else [])
          match fs.xy with
          | none => .error (.gcode ⟨noXYMsg, line, lineNumber⟩)
          | some xyMove =>
            .ok ⟨"T" ++ tool ++ " X" ++ optUndef xyMove.x ++ " Y" ++
                   optUndef xyMove.y ++
                   (match fs.z with
                    | some zMove => " Z" ++ optUndef zMove.z
                    | none => ""),
                 backLines, fs.acc ++ fwd.drop 19, cnt + 1, used,
                 some hasPurge, backWarns ++ fwdWarns, true⟩
    else .ok ⟨line, back, fwd, cnt, usedTools, purge0, [], false⟩

/-! ### The common-commands subsequence (`Actions.ts` lines 229–282,
`State.ts`, `GCodeProcessor.ts` line 81)

`whenCommonCommandDoThenStop` parses the line; on a match the subsequence
`findFirstMoveXY; findMinMaxX; processToolchange` runs and the main sequence
stops; otherwise the subsequence is skipped.

JavaScript numbers are modelled as exact rationals; `Number.MAX_VALUE` and
`Number.MIN_VALUE` (the `State.ts` sentinels for `minX`/`maxX`) are the
exact values `(2^53 − 1)·2^971` and `2^−1074`.  `Number(x)` of a string
captured by `[+-]?[\d.]+` is `NaN` (modelled as `none`) unless the text has
at least one digit and at most one dot; comparisons against `NaN` are
false. -/

/-- `Number.MAX_VALUE`, exactly. -/
def jsMaxValue : ℚ := (2 ^ 53 - 1) * 2 ^ 971

/-- `Number.MIN_VALUE`, exactly: the smallest positive double, `5e-324`.
Note that it is a (tiny) *positive* number. -/
def jsMinValue : ℚ := 1 / 2 ^ 1074

/-- Numeric value of a digit string. -/
def natOfDigits (l : List Char) : Nat :=
  l.foldl (fun a c => a * 10 + (c.toNat - 48)) 0

/-- `Number(x)` for a string `x` captured by `[+-]?[\d.]+`: `none` models
`NaN` (more than one dot, or no digit); otherwise the exact decimal value. -/
def jsNumber? (s : String) : Option ℚ :=
  let st : ℚ × List Char :=
    match s.toList with
    | '+' :: r => (1, r)
    | '-' :: r => (-1, r)
    | r => (1, r)
  let t := st.2
  if t.all (fun c => c.isDigit || c == '.') && decide (t.count '.' ≤ 1) &&
      t.any (fun c => c.isDigit) then
    let ip := t.takeWhile (fun c => c != '.')
    let fp := (t.dropWhile (fun c => c != '.')).drop 1
    some (st.1 * ((natOfDigits ip : ℚ) + (natOfDigits fp : ℚ) / 10 ^ fp.length))
  else none

/-- The stream-scope processing state relevant to the common-commands
subsequence (`State.ts`; `minX`/`maxX` start at `Number.MAX_VALUE` and
`Number.MIN_VALUE`).  `findFirstMoveRemoved` models the
`RemoveAndContinue` self-removal of `findFirstMoveXY`. -/
structure PipeState where
  currentLineNumber : Int := -1
  kQuickInpsectionOnly : Bool := false
  firstMoveX : Option String := none
  firstMoveY : Option String := none
  findFirstMoveRemoved : Bool := false
  minX : ℚ := jsMaxValue
  maxX : ℚ := jsMinValue
  toolChangeCount : Nat := 0
  usedTools : List String := []
  hasPurgeTower : Option Bool := none
deriving Repr, DecidableEq

/-- An error aborting the pipeline from the common-commands subsequence. -/
inductive PipeErr
  | gcode (e : GCodeErrorM)
  /-- The `InspectionIsComplete` control signal (quick-inspection mode). -/
  | inspectionIsComplete
  | rangeError (msg : String)
deriving Repr, DecidableEq

/-- The arcs-not-supported message of `findMinMaxX`. -/
def arcsMsg : String := "G2/G3 commands (arcs) are not currently supported."

/-- `findFirstMoveXY` (`Actions.ts` lines 240–253): on a `G` command latch
`firstMoveX`/`firstMoveY` (`??=`); once both are set, throw
`InspectionIsComplete` in quick mode, else remove itself. -/
def findFirstMoveXY (cmd : CommonGCodeCommand) (s : PipeState) :
    Except PipeErr PipeState :=
  if s.findFirstMoveRemoved then .ok s
  else if cmd.letter = 'G' then
    let fx := s.firstMoveX.orElse fun _ => cmd.x
    let fy := s.firstMoveY.orElse fun _ => cmd.y
    if fx.isSome ∧ fy.isSome then
      if s.kQuickInpsectionOnly then .error .inspectionIsComplete
      else .ok { s with firstMoveX := fx, firstMoveY := fy,
                        findFirstMoveRemoved := true }
    else .ok { s with firstMoveX := fx, firstMoveY := fy }
  else .ok s

/-- `findMinMaxX` (`Actions.ts` lines 255–282): on `G1` with an `x`
parameter update `minX`/`maxX` (`Number(x)` compared with `<`/`>`, so a
`NaN` never updates); on `G2`/`G3` throw the arcs `GCodeError`. -/
def findMinMaxX (cmd : CommonGCodeCommand) (line : String) (s : PipeState) :
    Except PipeErr PipeState :=
  if cmd.letter = 'G' then
    if cmd.value = "1" then
      .ok (match cmd.x with
        | some xs =>
          match jsNumber? xs with
          | some n =>
            let s1 := if n < s.minX then { s with minX := n } else s
            if n > s1.maxX then { s1 with maxX := n } else s1
          | none => s
        | none => s)
    else if cmd.value = "2" ∨ cmd.value = "3" then
      .error (.gcode ⟨arcsMsg, line, s.currentLineNumber⟩)
    else .ok s
  else .ok s

/-- One execution of the common-commands subsequence on a line (after
`START_PRINT` has been found): `whenCommonCommandDoThenStop` parses, then
`findFirstMoveXY`, `findMinMaxX` (which returns `Stop` for every `G` line)
and `processToolchange` (the only handler for `T` lines) run in order.
Returns the updated state, the (possibly rewritten) line, the two windows
and the warnings issued. -/
def runCommonSub (s : PipeState) (line : String) (back fwd : List String) :
    Except PipeErr (PipeState × String × List String × List String × List String) :=
  match parseCommonGCodeCommandLine line with
  | none => .ok (s, line, back, fwd, [])
  | some cmd =>
    match findFirstMoveXY cmd s with
    | .error e => .error e
    | .ok s1 =>
      match findMinMaxX cmd line s1 with
      | .error e => .error e
      | .ok s2 =>
        if cmd.letter = 'G' then .ok (s2, line, back, fwd, [])
        else
          match processToolchange s2.toolChangeCount s2.usedTools
              s2.hasPurgeTower s2.currentLineNumber line back fwd with
          | .error (.gcode e) => .error (.gcode e)
          | .error (.rangeError m) => .error (.rangeError m)
          | .ok out =>
            .ok ({ s2 with toolChangeCount := out.toolChangeCount,
                           usedTools := out.usedTools,
                           hasPurgeTower := out.hasPurgeTower },
                 out.line, out.back, out.fwd, out.warnings)

theorem findFirstMoveXY_ok (cmd : CommonGCodeCommand) (s : PipeState)
    (hq : s.kQuickInpsectionOnly = false) :
    ∃ s1, findFirstMoveXY cmd s = .ok s1 ∧
      s1.minX = s.minX ∧ s1.maxX = s.maxX ∧
      s1.currentLineNumber = s.currentLineNumber ∧
      s1.toolChangeCount = s.toolChangeCount ∧
      s1.usedTools = s.usedTools ∧ s1.hasPurgeTower = s.hasPurgeTower := by
  unfold findFirstMoveXY
  by_cases h1 : s.findFirstMoveRemoved = true
  · rw [if_pos h1]
    exact ⟨s, rfl, rfl, rfl, rfl, rfl, rfl, rfl⟩
  · rw [if_neg h1]
    by_cases h2 : cmd.letter = 'G'
    · rw [if_pos h2]
      simp only [hq, Bool.false_eq_true, if_false]
      split_ifs with h3
      · exact ⟨_, rfl, rfl, rfl, rfl, rfl, rfl, rfl⟩
      · exact ⟨_, rfl, rfl, rfl, rfl, rfl, rfl, rfl⟩
    · rw [if_neg h2]
      exact ⟨s, rfl, rfl, rfl, rfl, rfl, rfl, rfl⟩

/-- **C5.** Every `G2` or `G3` command line reached during full (non-quick)
processing of the common-commands subsequence aborts the pipeline with a
`GCodeError` whose message contains the substring `arcs` and which carries
the current line number and the line text. -/
theorem arcs_abort (s : PipeState) (line : String) (back fwd : List String)
    (cmd : CommonGCodeCommand)
    (hp : parseCommonGCodeCommandLine line = some cmd)
    (hl : cmd.letter = 'G') (hv : cmd.value = "2" ∨ cmd.value = "3")
    (hq : s.kQuickInpsectionOnly = false) :
    runCommonSub s line back fwd =
      .error (.gcode ⟨arcsMsg, line, s.currentLineNumber⟩) ∧
    strContainsSub arcsMsg "arcs" = true := by
  refine ⟨?_, by decide⟩
  obtain ⟨s1, hs1, _, _, hn, _, _, _⟩ := findFirstMoveXY_ok cmd s hq
  have hv1 : cmd.value ≠ "1" := by
    rcases hv with h | h <;> rw [h] <;> decide
  have hmm : findMinMaxX cmd line s1 =
      .error (.gcode ⟨arcsMsg, line, s.currentLineNumber⟩) := by
    unfold findMinMaxX
    rw [if_pos hl, if_neg hv1, if_pos hv, hn]
  simp [runCommonSub, hp, hs1, hmm]

/-- **C5 — witness** at the S4 scenario line `G2 X100 Y100 I10 J0 E1`. -/
theorem arcs_abort_witness :
    runCommonSub { currentLineNumber := 17 } "G2 X100 Y100 I10 J0 E1" [] [] =
      .error (.gcode ⟨arcsMsg, "G2 X100 Y100 I10 J0 E1", 17⟩) ∧
    strContainsSub arcsMsg "arcs" = true :=
  arcs_abort { currentLineNumber := 17 } "G2 X100 Y100 I10 J0 E1" [] []
    { letter := 'G', value := "2", x := some "100", y := some "100",
      i := some "10", j := some "0", e := some "1" }
    (by decide) (by decide) (Or.inl (by decide)) (by decide)

/-- **C6.** The claim says `min_x` begins at +∞ and `max_x` at −∞, and that
after the first `G1` with an `x` parameter they track the minimum and
maximum of the observed x values.  The code (`State.ts` lines 35–36)
initialises `minX = Number.MAX_VALUE` but `maxX = Number.MIN_VALUE`, which
is the smallest *positive* double (5e-324), not −∞: on the single move
`G1 X-5` the code leaves `max_x` at the positive sentinel instead of the
maximum of the observed values (−5). -/
theorem minMax_sentinel_bug :
    ({} : PipeState).minX = jsMaxValue ∧
    ({} : PipeState).maxX = jsMinValue ∧
    0 < jsMinValue ∧
    runCommonSub {} "G1 X-5" [] [] =
      .ok ({ firstMoveX := some "-5", minX := -5 }, "G1 X-5", [], [], []) ∧
    ({ firstMoveX := some "-5", minX := -5 } : PipeState).maxX ≠ (-5 : ℚ) := by
  have hp : parseCommonGCodeCommandLine "G1 X-5" =
      some { letter := 'G', value := "1", x := some "-5" } := by decide
  have hnum : jsNumber? "-5" = some (-5) := by
    simp [jsNumber?, natOfDigits]
  have hffm : findFirstMoveXY { letter := 'G', value := "1", x := some "-5" } {} =
      .ok { firstMoveX := some "-5" } := rfl
  have e1 : (-5 : ℚ) < jsMaxValue := by norm_num [jsMaxValue]
  have e2 : ¬ ((-5 : ℚ) > jsMinValue) := by norm_num [jsMinValue]
  have hmm : findMinMaxX { letter := 'G', value := "1", x := some "-5" } "G1 X-5"
      { firstMoveX := some "-5" } = .ok { firstMoveX := some "-5", minX := -5 } := by
    simp [findMinMaxX, hnum, e1, e2]
  refine ⟨rfl, rfl, by norm_num [jsMinValue], ?_, ?_⟩
  · simp [runCommonSub, hp, hffm, hmm]
  · show jsMinValue ≠ (-5 : ℚ)
    norm_num [jsMinValue]

/-! ### Observation functions for the forward toolchange scan

These definitions express, in the claim's vocabulary, what the forward scan
computes: the scanned part of the window (up to the second XY-bearing `G1`),
the first XY move, the last recorded Z move, the redaction of E and Z moves,
and the two Z-move counts. -/

/-- The parsed command of a `G1` line (`G0` collapses to `G1`). -/
def g1Cmd? (l : String) : Option CommonGCodeCommand :=
  match parseCommonGCodeCommandLine l with
  | some cmd => if cmd.letter == 'G' && cmd.value == "1" then some cmd else none
  | none => none

/-- Is the line a `G1` bearing an X or Y parameter? -/
def isXYG1 (l : String) : Bool :=
  match g1Cmd? l with
  | some cmd => cmd.x.isSome || cmd.y.isSome
  | none => false

/-- Is the line a `G1` bearing an E parameter (an E move, redacted by the
scan)? -/
def isEMove (l : String) : Bool :=
  match g1Cmd? l with
  | some cmd => cmd.e.isSome
  | none => false

/-- The parsed command of a `G1` line with a Z parameter and no E parameter
(a Z move as recorded by the scan). -/
def zRecCmd? (l : String) : Option CommonGCodeCommand :=
  match g1Cmd? l with
  | some cmd => if !cmd.e.isSome && cmd.z.isSome then some cmd else none
  | none => none

/-- Is the line a recorded Z move? -/
def isZRec (l : String) : Bool := (zRecCmd? l).isSome

/-- The part of the window the scan visits: everything before the stop (the
second XY-bearing `G1`, given that `seen` says whether one was already
captured). -/
def scanPre (seen : Bool) : List String → List String
  | [] => []
  | l :: rest =>
    if isXYG1 l then
      if seen then [] else l :: scanPre true rest
    else l :: scanPre seen rest

/-- The part of the window from the stop onwards (left untouched). -/
def scanSuf (seen : Bool) : List String → List String
  | [] => []
  | l :: rest =>
    if isXYG1 l then
      if seen then l :: rest else scanSuf true rest
    else scanSuf seen rest

/-- The first XY-bearing `G1` of the list, parsed. -/
def firstXYCmd? : List String → Option CommonGCodeCommand
  | [] => none
  | l :: rest => if isXYG1 l then g1Cmd? l else firstXYCmd? rest

/-- The last recorded Z move of the list, parsed. -/
def lastZCmd? : List String → Option CommonGCodeCommand
  | [] => none
  | l :: rest =>
    match lastZCmd? rest with
    | some c => some c
    | none => zRecCmd? l

/-- The index of the last recorded Z move of the list. -/
def lastZIdx? : List String → Option Nat
  | [] => none
  | l :: rest =>
    match lastZIdx? rest with
    | some k => some (k + 1)
    | none => if isZRec l then some 0 else none

/-- The scanned lines after redaction: every E move is prefixed with the
removed-by marker, and so is every recorded Z move that has a later recorded
Z move. -/
def renderPartial : List String → List String
  | [] => []
  | l :: rest =>
    (if isEMove l then REMOVED_BY_RATOS ++ l
     else if isZRec l && rest.any isZRec then REMOVED_BY_RATOS ++ l
     else l) :: renderPartial rest

/-- The scanned lines with *every* E move and recorded Z move redacted. -/
def renderAllZ : List String → List String
  | [] => []
  | l :: rest =>
    (if isEMove l then REMOVED_BY_RATOS ++ l
     else if isZRec l then REMOVED_BY_RATOS ++ l
     else l) :: renderAllZ rest

/-- The number of recorded Z moves in the list. -/
def countZ : List String → Nat
  | [] => 0
  | l :: rest => (if isZRec l then 1 else 0) + countZ rest

/-- The recorded-Z-move counts before the first XY-bearing `G1` and from it
onwards (`zMoveCount1`/`zMoveCount2`). -/
def zCounts : List String → Nat × Nat
  | [] => (0, 0)
  | l :: rest =>
    if isXYG1 l then (0, countZ (l :: rest))
    else ((zCounts rest).1 + (if isZRec l then 1 else 0), (zCounts rest).2)

theorem scanPre_append_scanSuf (seen : Bool) (ls : List String) :
    scanPre seen ls ++ scanSuf seen ls = ls := by
  induction ls generalizing seen with
  | nil => rfl
  | cons l rest ih =>
    unfold scanPre scanSuf
    by_cases h : isXYG1 l = true
    · rw [if_pos h, if_pos h]
      cases seen
      · simpa using ih true
      · rfl
    · rw [if_neg h, if_neg h]
      simpa using ih seen

theorem isXYG1_g1Cmd {l : String} (h : isXYG1 l = true) :
    ∃ c, g1Cmd? l = some c ∧ (c.x.isSome || c.y.isSome) = true := by
  unfold isXYG1 at h
  rcases hg : g1Cmd? l with _ | c
  · rw [hg] at h; simp at h
  · rw [hg] at h; exact ⟨c, rfl, h⟩

theorem firstXYCmd?_append (l₁ l₂ : List String) :
    firstXYCmd? (l₁ ++ l₂) =
      match firstXYCmd? l₁ with
      | some c => some c
      | none => firstXYCmd? l₂ := by
  induction l₁ with
  | nil => simp [firstXYCmd?]
  | cons l rest ih =>
    by_cases h : isXYG1 l = true
    · obtain ⟨c, hc, _⟩ := isXYG1_g1Cmd h
      simp [firstXYCmd?, h, hc]
    · simp only [List.cons_append, firstXYCmd?, h, if_false, Bool.false_eq_true,
        List.append_eq]
      rw [ih]

theorem firstXYCmd?_isSome_of_mem {ls : List String} {l : String}
    (hmem : l ∈ ls) (hxy : isXYG1 l = true) :
    (firstXYCmd? ls).isSome = true := by
  induction ls with
  | nil => simp at hmem
  | cons a rest ih =>
    unfold firstXYCmd?
    by_cases h : isXYG1 a = true
    · obtain ⟨c, hc, _⟩ := isXYG1_g1Cmd h
      simp [h, hc]
    · rcases List.mem_cons.mp hmem with he | hr
      · subst he; exact absurd hxy h
      · simp [h, ih hr]

theorem lastZCmd?_append (l₁ l₂ : List String) :
    lastZCmd? (l₁ ++ l₂) =
      match lastZCmd? l₂ with
      | some c => some c
      | none => lastZCmd? l₁ := by
  induction l₁ with
  | nil => cases h : lastZCmd? l₂ <;> simp [h, lastZCmd?]
  | cons l rest ih =>
    rw [List.cons_append]
    conv_lhs => rw [lastZCmd?]
    rw [ih]
    conv_rhs => rw [lastZCmd?]
    cases h2 : lastZCmd? l₂ <;> cases hr : lastZCmd? rest <;> simp

theorem lastZIdx?_append_single (done : List String) (l : String) :
    lastZIdx? (done ++ [l]) =
      if isZRec l then some done.length else lastZIdx? done := by
  induction done with
  | nil =>
    by_cases h : isZRec l = true <;> simp [lastZIdx?, h]
  | cons a rest ih =>
    simp only [List.cons_append, lastZIdx?, List.append_eq]
    rw [ih]
    by_cases h : isZRec l = true
    · simp [h, List.length_cons]
    · simp [h]

theorem countZ_append (l₁ l₂ : List String) :
    countZ (l₁ ++ l₂) = countZ l₁ + countZ l₂ := by
  induction l₁ with
  | nil => simp [countZ]
  | cons a rest ih =>
    simp only [List.cons_append, countZ, List.append_eq, ih]
    omega

theorem lastZIdx?_eq_none_iff (ls : List String) :
    lastZIdx? ls = none ↔ ls.any isZRec = false := by
  induction ls with
  | nil => simp [lastZIdx?]
  | cons a rest ih =>
    unfold lastZIdx?
    cases hr : lastZIdx? rest with
    | some k =>
      have hany : rest.any isZRec = true := by
        rcases hb : rest.any isZRec with _ | _
        · rw [ih.mpr hb] at hr; exact absurd hr (by simp)
        · rfl
      simp [hany]
    | none =>
      by_cases h : isZRec a = true
      · simp [hr, h]
      · simp [hr, h, ih.mp hr]

theorem renderPartial_length (ls : List String) :
    (renderPartial ls).length = ls.length := by
  induction ls with
  | nil => rfl
  | cons a rest ih => simp [renderPartial, ih]

theorem renderAllZ_length (ls : List String) :
    (renderAllZ ls).length = ls.length := by
  induction ls with
  | nil => rfl
  | cons a rest ih => simp [renderAllZ, ih]

theorem renderPartial_eq_renderAllZ_of_noZ {ls : List String}
    (h : ls.any isZRec = false) : renderPartial ls = renderAllZ ls := by
  induction ls with
  | nil => rfl
  | cons a rest ih =>
    simp only [List.any_cons, Bool.or_eq_false_iff] at h
    simp [renderPartial, renderAllZ, h.1, ih h.2]

theorem renderPartial_append_single (done : List String) (l : String) :
    renderPartial (done ++ [l]) =
      (if isZRec l then renderAllZ done else renderPartial done) ++
      [if isEMove l then REMOVED_BY_RATOS ++ l else l] := by
  induction done with
  | nil =>
    by_cases hE : isEMove l = true <;> by_cases hZ : isZRec l = true <;>
      simp [renderPartial, renderAllZ, hE, hZ]
  | cons a rest ih =>
    simp only [List.cons_append, renderPartial, List.any_append, List.append_eq,
      List.any_cons, List.any_nil, Bool.or_false]
    rw [ih]
    by_cases hZ : isZRec l = true
    · simp only [hZ, if_true, Bool.or_true, Bool.and_true, renderAllZ]
      by_cases hE : isEMove a = true <;> by_cases hZa : isZRec a = true <;>
        simp [hE, hZa]
    · simp [hZ]

theorem renderPartial_set_lastZ {done : List String} {k : Nat}
    (h : lastZIdx? done = some k) :
    (renderPartial done).set k
        (REMOVED_BY_RATOS ++ (renderPartial done).getD k "") =
      renderAllZ done := by
  induction done generalizing k with
  | nil => simp [lastZIdx?] at h
  | cons a rest ih =>
    unfold lastZIdx? at h
    cases hr : lastZIdx? rest with
    | some k' =>
      rw [hr] at h
      simp only [Option.some.injEq] at h
      subst h
      have hany : rest.any isZRec = true := by
        rcases hb : rest.any isZRec with _ | _
        · exact absurd hr (by simp [(lastZIdx?_eq_none_iff rest).mpr hb])
        · rfl
      simp only [renderPartial, renderAllZ, hany, Bool.and_true,
        List.set_cons_succ, List.getD_cons_succ, List.cons.injEq]
      exact ⟨trivial, ih hr⟩
    | none =>
      rw [hr] at h
      by_cases hZa : isZRec a = true
      · rw [if_pos hZa] at h
        simp only [Option.some.injEq] at h
        subst h
        have hnoz : rest.any isZRec = false := (lastZIdx?_eq_none_iff rest).mp hr
        have hEa : isEMove a = false := by
          rcases hg : g1Cmd? a with _ | c
          · simp [isEMove, hg]
          · unfold isZRec zRecCmd? at hZa
            rw [hg] at hZa
            by_cases he : c.e.isSome = true
            · simp [he] at hZa
            · simp [isEMove, hg, he]
        simp only [renderPartial, renderAllZ, hnoz, Bool.and_false, hEa,
          Bool.false_eq_true, if_false, List.set_cons_zero, List.getD_cons_zero,
          hZa, if_true, List.cons.injEq]
        exact ⟨trivial, renderPartial_eq_renderAllZ_of_noZ hnoz⟩
      · rw [if_neg hZa] at h
        exact absurd h (by simp)

theorem zCounts2_eq_zero_of_noXY {done : List String}
    (h : firstXYCmd? done = none) : (zCounts done).2 = 0 := by
  induction done with
  | nil => rfl
  | cons a rest ih =>
    unfold firstXYCmd? at h
    by_cases hxy : isXYG1 a = true
    · rw [if_pos hxy] at h
      obtain ⟨c, hc, _⟩ := isXYG1_g1Cmd hxy
      rw [hc] at h
      exact absurd h (by simp)
    · rw [if_neg hxy] at h
      simp [zCounts, hxy, ih h]

theorem zCounts_append_single (done : List String) (l : String) :
    zCounts (done ++ [l]) =
      if (firstXYCmd? done).isSome then
        ((zCounts done).1, (zCounts done).2 + (if isZRec l then 1 else 0))
      else if isXYG1 l then
        ((zCounts done).1, if isZRec l then 1 else 0)
      else
        ((zCounts done).1 + (if isZRec l then 1 else 0), (zCounts done).2) := by
  induction done with
  | nil =>
    simp only [List.nil_append, firstXYCmd?, Option.isSome_none,
      Bool.false_eq_true, if_false]
    by_cases hxy : isXYG1 l = true
    · simp [zCounts, hxy, countZ]
    · simp [zCounts, hxy]
  | cons a rest ih =>
    by_cases hxy : isXYG1 a = true
    · obtain ⟨c, hc, _⟩ := isXYG1_g1Cmd hxy
      simp only [List.cons_append, zCounts, hxy, if_true, firstXYCmd?, hc,
        Option.isSome_some, countZ_append, countZ]
      by_cases hz : isZRec l = true <;> simp [hz, countZ_append, countZ] <;> omega
    · simp only [List.cons_append, zCounts, hxy, Bool.false_eq_true, if_false,
        firstXYCmd?, List.append_eq]
      rw [ih]
      by_cases hseen : (firstXYCmd? rest).isSome = true
      · simp [hseen]
      · simp only [hseen, Bool.false_eq_true, if_false]
        by_cases hxyl : isXYG1 l = true
        · simp [hxyl]
        · simp [hxyl]
          omega

theorem renderPartial_set_lastZ' {done : List String} {k : Nat}
    (h : lastZIdx? done = some k) :
    (renderPartial done).set k
        (REMOVED_BY_RATOS ++ ((renderPartial done)[k]?).getD "") =
      renderAllZ done := by
  have h2 := renderPartial_set_lastZ h
  simpa [List.getD] using h2

theorem firstXYCmd?_snoc_nonXY (done : List String) (l : String)
    (h : isXYG1 l = false) : firstXYCmd? (done ++ [l]) = firstXYCmd? done := by
  rw [firstXYCmd?_append]
  cases firstXYCmd? done <;> simp [firstXYCmd?, h]

theorem firstXYCmd?_snoc_XY (done : List String) (l : String)
    (hseen : firstXYCmd? done = none) (h : isXYG1 l = true) :
    firstXYCmd? (done ++ [l]) = g1Cmd? l := by
  rw [firstXYCmd?_append, hseen]
  simp [firstXYCmd?, h]

theorem lastZCmd?_snoc_nonZ (done : List String) (l : String)
    (h : zRecCmd? l = none) : lastZCmd? (done ++ [l]) = lastZCmd? done := by
  rw [lastZCmd?_append]
  simp [lastZCmd?, h]

theorem lastZCmd?_snoc_Z (done : List String) (l : String)
    {c : CommonGCodeCommand} (h : zRecCmd? l = some c) :
    lastZCmd? (done ++ [l]) = some c := by
  rw [lastZCmd?_append]
  simp [lastZCmd?, h]

/-- The fold state of the no-purge forward scan after the lines `done` have
been scanned with no stop. -/
def stateOfNP (done : List String) : FwdState :=
  { xy := firstXYCmd? done, z := lastZCmd? done,
    zc1 := (zCounts done).1, zc2 := (zCounts done).2,
    foundStop := false, acc := renderPartial done, prevZ := lastZIdx? done }

/-- The final fold state of the no-purge forward scan over `ls` after `done`,
in terms of the observation functions. -/
def fwdResultNP (done ls : List String) : FwdState :=
  { xy := firstXYCmd? (done ++ scanPre (firstXYCmd? done).isSome ls),
    z := lastZCmd? (done ++ scanPre (firstXYCmd? done).isSome ls),
    zc1 := (zCounts (done ++ scanPre (firstXYCmd? done).isSome ls)).1,
    zc2 := (zCounts (done ++ scanPre (firstXYCmd? done).isSome ls)).2,
    foundStop := !(scanSuf (firstXYCmd? done).isSome ls).isEmpty,
    acc := renderPartial (done ++ scanPre (firstXYCmd? done).isSome ls) ++
           scanSuf (firstXYCmd? done).isSome ls,
    prevZ := lastZIdx? (done ++ scanPre (firstXYCmd? done).isSome ls) }

theorem fwdResultNP_cons (done : List String) (l : String) (rest : List String)
    (hns : ¬(isXYG1 l = true ∧ (firstXYCmd? done).isSome = true)) :
    fwdResultNP done (l :: rest) = fwdResultNP (done ++ [l]) rest := by
  by_cases hxy : isXYG1 l = true
  · have hseen : (firstXYCmd? done).isSome = false := by
      rcases hb : (firstXYCmd? done).isSome with _ | _
      · rfl
      · exact absurd ⟨hxy, hb⟩ hns
    have hseen' : firstXYCmd? done = none := by
      rcases hf : firstXYCmd? done with _ | c
      · rfl
      · rw [hf] at hseen; simp at hseen
    obtain ⟨c, hc, _⟩ := isXYG1_g1Cmd hxy
    have hnew : (firstXYCmd? (done ++ [l])).isSome = true := by
      rw [firstXYCmd?_snoc_XY done l hseen' hxy, hc]; rfl
    unfold fwdResultNP
    rw [hseen, hnew]
    simp only [scanPre, scanSuf, hxy, if_true, Bool.false_eq_true, if_false]
    rw [List.append_cons]
  · have heq : (firstXYCmd? (done ++ [l])).isSome = (firstXYCmd? done).isSome := by
      rw [firstXYCmd?_snoc_nonXY done l (by simpa using hxy)]
    unfold fwdResultNP
    rw [heq]
    simp only [scanPre, scanSuf, hxy, Bool.false_eq_true, if_false]
    rw [List.append_cons]

theorem fwdGo_noPurge_char (ls : List String) : ∀ done : List String,
    fwdGo false (stateOfNP done) ls = fwdResultNP done ls := by
  induction ls with
  | nil =>
    intro done
    simp [fwdGo, stateOfNP, fwdResultNP, scanPre, scanSuf]
  | cons l rest ih =>
    intro done
    rcases hp : parseCommonGCodeCommandLine l with _ | cmd
    · -- not a recognised command: the line passes through unchanged
      have hg : g1Cmd? l = none := by simp [g1Cmd?, hp]
      have hxy : isXYG1 l = false := by simp [isXYG1, hg]
      have hE : isEMove l = false := by simp [isEMove, hg]
      have hZr : zRecCmd? l = none := by simp [zRecCmd?, hg]
      have hZ : isZRec l = false := by simp [isZRec, hZr]
      have hstate : stateOfNP (done ++ [l]) =
          { stateOfNP done with acc := renderPartial done ++ [l] } := by
        simp [stateOfNP, firstXYCmd?_snoc_nonXY done l hxy,
          lastZCmd?_snoc_nonZ done l hZr, zCounts_append_single,
          renderPartial_append_single, lastZIdx?_append_single, hxy, hE, hZ]
      rw [fwdResultNP_cons done l rest (by simp [hxy]), ← ih (done ++ [l]),
        hstate]
      conv_lhs => rw [fwdGo]
      rw [hp]
      rfl
    · by_cases hG : cmd.letter = 'G' ∧ cmd.value = "1"
      · have hg : g1Cmd? l = some cmd := by
          simp [g1Cmd?, hp, hG.1, hG.2]
        have hxy : isXYG1 l = (cmd.x.isSome || cmd.y.isSome) := by
          simp [isXYG1, hg]
        have hE : isEMove l = cmd.e.isSome := by simp [isEMove, hg]
        have hZr : zRecCmd? l =
            if (!cmd.e.isSome && cmd.z.isSome) = true then some cmd else none := by
          simp [zRecCmd?, hg]
        by_cases hxyl : (cmd.x.isSome ∨ cmd.y.isSome)
        · by_cases hseen : (firstXYCmd? done).isSome = true
          · -- stop: second XY move
            have hxyt : isXYG1 l = true := by
              rw [hxy]; rcases hxyl with h | h <;> simp [h]
            conv_lhs => rw [fwdGo]
            rw [hp]
            simp only [hG.1, hG.2, and_self, if_true, hxyl, true_and,
              stateOfNP, hseen, if_pos]
            unfold fwdResultNP
            simp only [scanPre, scanSuf, hxyt, hseen, if_true]
            simp [stateOfNP]
          · -- first XY move: record it, then the E/Z handling
            have hseen' : firstXYCmd? done = none := by
              rcases hf : firstXYCmd? done with _ | c
              · rfl
              · rw [hf] at hseen; simp at hseen
            have hxyt : isXYG1 l = true := by
              rw [hxy]; rcases hxyl with h | h <;> simp [h]
            have hfx : firstXYCmd? (done ++ [l]) = some cmd := by
              rw [firstXYCmd?_snoc_XY done l hseen' hxyt, hg]
            by_cases he : cmd.e.isSome = true
            · -- E move (also the captured XY): comment out
              have hEt : isEMove l = true := by rw [hE, he]
              have hZrn : zRecCmd? l = none := by rw [hZr]; simp [he]
              have hZf : isZRec l = false := by simp [isZRec, hZrn]
              have hstate : stateOfNP (done ++ [l]) =
                  { stateOfNP done with
                    xy := some cmd
                    acc := renderPartial done ++ [REMOVED_BY_RATOS ++ l]
                    zc2 := if isZRec l then 1 else 0 } := by
                simp [stateOfNP, hfx, lastZCmd?_snoc_nonZ done l hZrn,
                  zCounts_append_single, renderPartial_append_single,
                  lastZIdx?_append_single, hxyt, hEt, hZf, hseen,
                  zCounts2_eq_zero_of_noXY hseen']
              rw [fwdResultNP_cons done l rest (by simp [hseen]),
                ← ih (done ++ [l]), hstate]
              conv_lhs => rw [fwdGo]
              rw [hp]
              simp only [hG.1, hG.2, and_self, if_true, hxyl, true_and,
                stateOfNP, hseen, Bool.false_eq_true, if_false, and_false,
                he, if_pos]
              simp [hZf, zCounts2_eq_zero_of_noXY hseen']
            · by_cases hz : cmd.z.isSome = true
              · -- Z move on the first-XY line: recorded as zc2
                have hZrs : zRecCmd? l = some cmd := by
                  rw [hZr]; simp [he, hz]
                have hZt : isZRec l = true := by simp [isZRec, hZrs]
                have hEf : isEMove l = false := by
                  rw [hE]; simpa using he
                have hstate : stateOfNP (done ++ [l]) =
                    { stateOfNP done with
                      xy := some cmd
                      z := some cmd
                      zc2 := 1
                      acc := renderAllZ done ++ [l]
                      prevZ := some done.length } := by
                  simp [stateOfNP, hfx, lastZCmd?_snoc_Z done l hZrs,
                    zCounts_append_single, renderPartial_append_single,
                    lastZIdx?_append_single, hxyt, hEf, hZt, hseen,
                    zCounts2_eq_zero_of_noXY hseen']
                rw [fwdResultNP_cons done l rest (by simp [hseen]),
                  ← ih (done ++ [l]), hstate]
                conv_lhs => rw [fwdGo]
                rw [hp]
                simp only [hG.1, hG.2, and_self, if_true, hxyl, true_and,
                  stateOfNP, hseen, Bool.false_eq_true, if_false, and_false,
                  he, hz, if_pos]
                have hset : ∀ k,  lastZIdx? done = some k →
                    (renderPartial done).set k
                      (REMOVED_BY_RATOS ++ (renderPartial done).getD k "") =
                    renderAllZ done := fun k h => renderPartial_set_lastZ h
                rcases hidx : lastZIdx? done with _ | k
                · have hnoz : done.any isZRec = false :=
                    (lastZIdx?_eq_none_iff done).mp hidx
                  simp [stateOfNP, hseen', hidx, renderPartial_length,
                    renderAllZ_length, renderPartial_eq_renderAllZ_of_noZ hnoz,
                    zCounts2_eq_zero_of_noXY hseen']
                · simp [stateOfNP, hseen', hidx, renderPartial_length,
                    renderAllZ_length, renderPartial_set_lastZ' hidx,
                    zCounts2_eq_zero_of_noXY hseen']
              · -- plain first XY move
                have hZrn : zRecCmd? l = none := by rw [hZr]; simp [he, hz]
                have hZf : isZRec l = false := by simp [isZRec, hZrn]
                have hEf : isEMove l = false := by rw [hE]; simpa using he
                have hstate : stateOfNP (done ++ [l]) =
                    { stateOfNP done with
                      xy := some cmd
                      acc := renderPartial done ++ [l]
                      zc2 := 0 } := by
                  simp [stateOfNP, hfx, lastZCmd?_snoc_nonZ done l hZrn,
                    zCounts_append_single, renderPartial_append_single,
                    lastZIdx?_append_single, hxyt, hEf, hZf, hseen,
                    zCounts2_eq_zero_of_noXY hseen']
                rw [fwdResultNP_cons done l rest (by simp [hseen]),
                  ← ih (done ++ [l]), hstate]
                conv_lhs => rw [fwdGo]
                rw [hp]
                simp only [hG.1, hG.2, and_self, if_true, hxyl, true_and,
                  stateOfNP, hseen, Bool.false_eq_true, if_false, and_false,
                  he, hz, if_pos]
                simp [stateOfNP, hseen', zCounts2_eq_zero_of_noXY hseen']
        · -- a G1 without X or Y
          have hxyf : isXYG1 l = false := by
            rw [hxy]
            rcases hx : cmd.x.isSome with _ | _
            · rcases hy : cmd.y.isSome with _ | _
              · rfl
              · exact absurd (Or.inr hy) hxyl
            · exact absurd (Or.inl hx) hxyl
          by_cases he : cmd.e.isSome = true
          · have hEt : isEMove l = true := by rw [hE, he]
            have hZrn : zRecCmd? l = none := by rw [hZr]; simp [he]
            have hZf : isZRec l = false := by simp [isZRec, hZrn]
            have hstate : stateOfNP (done ++ [l]) =
                { stateOfNP done with
                  acc := renderPartial done ++ [REMOVED_BY_RATOS ++ l] } := by
              simp [stateOfNP, firstXYCmd?_snoc_nonXY done l hxyf,
                lastZCmd?_snoc_nonZ done l hZrn, zCounts_append_single,
                renderPartial_append_single, lastZIdx?_append_single,
                hxyf, hEt, hZf]
            rw [fwdResultNP_cons done l rest (by simp [hxyf]),
              ← ih (done ++ [l]), hstate]
            conv_lhs => rw [fwdGo]
            rw [hp]
            simp only [hG.1, hG.2, and_self, if_true, stateOfNP,
              Bool.false_eq_true, if_false, he, if_pos]
            have hnd : ¬ ((cmd.x.isSome = true ∨ cmd.y.isSome = true) ∧
                (firstXYCmd? done).isSome = true) := by
              intro hcon
              exact hxyl hcon.1
            simp [stateOfNP, hxyl, hnd]
          · by_cases hz : cmd.z.isSome = true
            · -- recorded Z move
              have hZrs : zRecCmd? l = some cmd := by rw [hZr]; simp [he, hz]
              have hZt : isZRec l = true := by simp [isZRec, hZrs]
              have hEf : isEMove l = false := by rw [hE]; simpa using he
              have hstate : stateOfNP (done ++ [l]) =
                  { stateOfNP done with
                    z := some cmd
                    zc1 := (zCounts done).1 +
                      (if (firstXYCmd? done).isSome then 0 else 1)
                    zc2 := (zCounts done).2 +
                      (if (firstXYCmd? done).isSome then 1 else 0)
                    acc := renderAllZ done ++ [l]
                    prevZ := some done.length } := by
                by_cases hseen : (firstXYCmd? done).isSome = true <;>
                  simp [stateOfNP, firstXYCmd?_snoc_nonXY done l hxyf,
                    lastZCmd?_snoc_Z done l hZrs, zCounts_append_single,
                    renderPartial_append_single, lastZIdx?_append_single,
                    hxyf, hEf, hZt, hseen]
              rw [fwdResultNP_cons done l rest (by simp [hxyf]),
                ← ih (done ++ [l]), hstate]
              conv_lhs => rw [fwdGo]
              rw [hp]
              simp only [hG.1, hG.2, and_self, if_true, stateOfNP,
                Bool.false_eq_true, if_false, he, hz, if_pos]
              have hnd : ¬ ((cmd.x.isSome = true ∨ cmd.y.isSome = true) ∧
                  (firstXYCmd? done).isSome = true) := fun hcon => hxyl hcon.1
              rcases hidx : lastZIdx? done with _ | k
              · have hnoz : done.any isZRec = false :=
                  (lastZIdx?_eq_none_iff done).mp hidx
                rcases hf : firstXYCmd? done with _ | c0 <;>
                  simp [stateOfNP, hxyl, hnd, hidx, renderPartial_length,
                    renderAllZ_length, renderPartial_eq_renderAllZ_of_noZ hnoz,
                    hf]
              · rcases hf : firstXYCmd? done with _ | c0 <;>
                  simp [stateOfNP, hxyl, hnd, hidx, renderPartial_length,
                    renderAllZ_length, renderPartial_set_lastZ' hidx, hf]
            · -- plain G1, no X/Y/E/Z of interest
              have hZrn : zRecCmd? l = none := by rw [hZr]; simp [he, hz]
              have hZf : isZRec l = false := by simp [isZRec, hZrn]
              have hEf : isEMove l = false := by rw [hE]; simpa using he
              have hstate : stateOfNP (done ++ [l]) =
                  { stateOfNP done with acc := renderPartial done ++ [l] } := by
                simp [stateOfNP, firstXYCmd?_snoc_nonXY done l hxyf,
                  lastZCmd?_snoc_nonZ done l hZrn, zCounts_append_single,
                  renderPartial_append_single, lastZIdx?_append_single,
                  hxyf, hEf, hZf]
              rw [fwdResultNP_cons done l rest (by simp [hxyf]),
                ← ih (done ++ [l]), hstate]
              conv_lhs => rw [fwdGo]
              rw [hp]
              simp only [hG.1, hG.2, and_self, if_true, stateOfNP,
                Bool.false_eq_true, if_false, he, hz, if_pos]
              have hnd : ¬ ((cmd.x.isSome = true ∨ cmd.y.isSome = true) ∧
                  (firstXYCmd? done).isSome = true) := fun hcon => hxyl hcon.1
              simp [stateOfNP, hxyl, hnd]
      · -- a parsed command that is not G1 (G2/G3 or Tn): passes through
        have hg : g1Cmd? l = none := by
          unfold g1Cmd?
          rw [hp]
          have hb : (cmd.letter == 'G' && cmd.value == "1") = false := by
            rcases hb2 : (cmd.letter == 'G' && cmd.value == "1") with _ | _
            · rfl
            · exact absurd (by simpa using hb2) hG
          simp [hb]
        have hxy : isXYG1 l = false := by simp [isXYG1, hg]
        have hE : isEMove l = false := by simp [isEMove, hg]
        have hZr : zRecCmd? l = none := by simp [zRecCmd?, hg]
        have hZ : isZRec l = false := by simp [isZRec, hZr]
        have hstate : stateOfNP (done ++ [l]) =
            { stateOfNP done with acc := renderPartial done ++ [l] } := by
          simp [stateOfNP, firstXYCmd?_snoc_nonXY done l hxy,
            lastZCmd?_snoc_nonZ done l hZr, zCounts_append_single,
            renderPartial_append_single, lastZIdx?_append_single, hxy, hE, hZ]
        rw [fwdResultNP_cons done l rest (by simp [hxy]), ← ih (done ++ [l]),
          hstate]
        conv_lhs => rw [fwdGo]
        rw [hp]
        have hGf : ¬ (cmd.letter = 'G' ∧ cmd.value = "1") := hG
        simp [stateOfNP, hGf]

theorem fwdGo_purge_char (ls : List String) : ∀ (done : List String)
    (z0 : Option CommonGCodeCommand) (c1 c2 : Nat) (pz : Option Nat),
    fwdGo true ⟨firstXYCmd? done, z0, c1, c2, false, done, pz⟩ ls =
      ⟨firstXYCmd? (done ++ scanPre (firstXYCmd? done).isSome ls), z0, c1, c2,
       !(scanSuf (firstXYCmd? done).isSome ls).isEmpty,
       (done ++ scanPre (firstXYCmd? done).isSome ls) ++
         scanSuf (firstXYCmd? done).isSome ls, pz⟩ := by
  induction ls with
  | nil =>
    intro done z0 c1 c2 pz
    simp [fwdGo, scanPre, scanSuf]
  | cons l rest ih =>
    intro done z0 c1 c2 pz
    rcases hp : parseCommonGCodeCommandLine l with _ | cmd
    · have hg : g1Cmd? l = none := by simp [g1Cmd?, hp]
      have hxy : isXYG1 l = false := by simp [isXYG1, hg]
      have hstep : fwdGo true ⟨firstXYCmd? done, z0, c1, c2, false, done, pz⟩
          (l :: rest) =
          fwdGo true ⟨firstXYCmd? (done ++ [l]), z0, c1, c2, false,
            done ++ [l], pz⟩ rest := by
        conv_lhs => rw [fwdGo]
        rw [hp, firstXYCmd?_snoc_nonXY done l hxy]
      rw [hstep, ih (done ++ [l])]
      rw [firstXYCmd?_snoc_nonXY done l hxy]
      simp only [scanPre, scanSuf, hxy, Bool.false_eq_true, if_false]
      simp
    · by_cases hG : cmd.letter = 'G' ∧ cmd.value = "1"
      · have hg : g1Cmd? l = some cmd := by simp [g1Cmd?, hp, hG.1, hG.2]
        have hxy : isXYG1 l = (cmd.x.isSome || cmd.y.isSome) := by
          simp [isXYG1, hg]
        by_cases hxyl : (cmd.x.isSome ∨ cmd.y.isSome)
        · have hxyt : isXYG1 l = true := by
            rw [hxy]; rcases hxyl with h | h <;> simp [h]
          by_cases hseen : (firstXYCmd? done).isSome = true
          · -- stop on the second XY move
            conv_lhs => rw [fwdGo]
            rw [hp]
            simp only [hG.1, hG.2, and_self, if_true, hxyl, true_and, hseen,
              if_pos]
            simp only [scanPre, scanSuf, hxyt, hseen, if_true]
            simp
          · have hseen' : firstXYCmd? done = none := by
              rcases hf : firstXYCmd? done with _ | c
              · rfl
              · rw [hf] at hseen; simp at hseen
            have hfx : firstXYCmd? (done ++ [l]) = some cmd := by
              rw [firstXYCmd?_snoc_XY done l hseen' hxyt, hg]
            have hstep : fwdGo true
                ⟨firstXYCmd? done, z0, c1, c2, false, done, pz⟩ (l :: rest) =
                fwdGo true ⟨firstXYCmd? (done ++ [l]), z0, c1, c2, false,
                  done ++ [l], pz⟩ rest := by
              conv_lhs => rw [fwdGo]
              rw [hp]
              simp only [hG.1, hG.2, and_self, if_true, hxyl, true_and,
                hseen', hfx]
              simp [hseen']
            rw [hstep, ih (done ++ [l]), hfx]
            simp only [scanPre, scanSuf, hxyt, if_true, hseen,
              Bool.false_eq_true, if_false, hseen', Option.isSome_none,
              Option.isSome_some]
            simp
        · have hxyf : isXYG1 l = false := by
            rw [hxy]
            rcases hx : cmd.x.isSome with _ | _
            · rcases hy : cmd.y.isSome with _ | _
              · rfl
              · exact absurd (Or.inr hy) hxyl
            · exact absurd (Or.inl hx) hxyl
          have hstep : fwdGo true
              ⟨firstXYCmd? done, z0, c1, c2, false, done, pz⟩ (l :: rest) =
              fwdGo true ⟨firstXYCmd? (done ++ [l]), z0, c1, c2, false,
                done ++ [l], pz⟩ rest := by
            conv_lhs => rw [fwdGo]
            rw [hp, firstXYCmd?_snoc_nonXY done l hxyf]
            have hnd : ¬ ((cmd.x.isSome = true ∨ cmd.y.isSome = true) ∧
                (firstXYCmd? (done ++ [l])).isSome = true) :=
              fun hcon => hxyl hcon.1
            simp only [hG.1, hG.2, and_self, if_true, hnd,
              Bool.false_eq_true, if_false]
            simp [hxyl]
          rw [hstep, ih (done ++ [l])]
          rw [firstXYCmd?_snoc_nonXY done l hxyf]
          simp only [scanPre, scanSuf, hxyf, Bool.false_eq_true, if_false]
          simp
      · have hg : g1Cmd? l = none := by
          unfold g1Cmd?
          rw [hp]
          have hb : (cmd.letter == 'G' && cmd.value == "1") = false := by
            rcases hb2 : (cmd.letter == 'G' && cmd.value == "1") with _ | _
            · rfl
            · exact absurd (by simpa using hb2) hG
          simp [hb]
        have hxy : isXYG1 l = false := by simp [isXYG1, hg]
        have hstep : fwdGo true
            ⟨firstXYCmd? done, z0, c1, c2, false, done, pz⟩ (l :: rest) =
            fwdGo true ⟨firstXYCmd? (done ++ [l]), z0, c1, c2, false,
              done ++ [l], pz⟩ rest := by
          conv_lhs => rw [fwdGo]
          rw [hp, firstXYCmd?_snoc_nonXY done l hxy]
          simp [hG]
        rw [hstep, ih (done ++ [l])]
        rw [firstXYCmd?_snoc_nonXY done l hxy]
        simp only [scanPre, scanSuf, hxy, Bool.false_eq_true, if_false]
        simp

instance {ε α : Type} [DecidableEq ε] [DecidableEq α] :
    DecidableEq (Except ε α) := fun x y =>
  match x, y with
  | .error a, .error b =>
    if h : a = b then .isTrue (by rw [h])
    else .isFalse (by intro hc; cases hc; exact h rfl)
  | .error _, .ok _ => .isFalse (by intro hc; cases hc)
  | .ok _, .error _ => .isFalse (by intro hc; cases hc)
  | .ok a, .ok b =>
    if h : a = b then .isTrue (by rw [h])
    else .isFalse (by intro hc; cases hc; exact h rfl)

theorem firstXYCmd?_scanPre (ls : List String) :
    firstXYCmd? (scanPre false ls) = firstXYCmd? ls := by
  induction ls with
  | nil => rfl
  | cons l rest ih =>
    unfold scanPre firstXYCmd?
    by_cases h : isXYG1 l = true
    · simp [firstXYCmd?, h]
    · simpa [firstXYCmd?, h] using ih

/-- The intended result of `processToolchange` on a non-first `T<n>` line, in
terms of the observation functions: `pre` is the scanned part of the 19-line
window (up to the stop at a second XY-bearing `G1`), `suf` the untouched rest
of the window; `marks`/`bstop` are the redaction marks and end condition of
the backward scan. -/
def toolchangeSpec (cnt : Nat) (usedTools : List String) (hasPurge : Bool)
    (marks : List Nat) (bstop : Bool) (n : Int) (line tool : String)
    (back fwd : List String) : Except ToolchangeError ToolchangeOut :=
  let scan19 := fwd.take 19
  let pre := scanPre false scan19
  let suf := scanSuf false scan19
  let used := if tool ∈ usedTools then usedTools else usedTools ++ [tool]
  match firstXYCmd? scan19 with
  | none => .error (.gcode ⟨noXYMsg, line, n⟩)
  | some xyc =>
    if hasPurge then
      .ok ⟨"T" ++ tool ++ " X" ++ optUndef xyc.x ++ " Y" ++ optUndef xyc.y,
           back, fwd, cnt + 1, used, some true,
           if suf.isEmpty then [fwdSmellMsg n] else [], true⟩
    else
      .ok ⟨"T" ++ tool ++ " X" ++ optUndef xyc.x ++ " Y" ++ optUndef xyc.y ++
             (match lastZCmd? pre with
              | some zc => " Z" ++ optUndef zc.z
              | none => ""),
           (List.range back.length).zipWith
             (fun k l => if k ∈ marks then REMOVED_BY_RATOS ++ l else l) back,
           renderPartial pre ++ suf ++ fwd.drop 19, cnt + 1, used, some false,
           (if bstop then [] else [backSmellMsg n]) ++
             ((if suf.isEmpty then [fwdSmellMsg n] else []) ++
              (if 2 < (zCounts pre).1 ∨ 2 < (zCounts pre).2
               then [zSmellMsg n] else [])),
           true⟩

theorem strAppendEmpty (s : String) : s ++ "" = s := String.append_empty s

theorem processToolchange_eq_spec
    (cnt : Nat) (usedTools : List String) (purge0 : Option Bool)
    (lineNumber : Int) (line : String) (back fwd : List String)
    (cmd : CommonGCodeCommand) (marks : List Nat) (bstop : Bool)
    (hp : parseCommonGCodeCommandLine line = some cmd)
    (hT : cmd.letter = 'T') (hcnt : 1 ≤ cnt)
    (hback : purgeDetect purge0 back = false →
      backGo back 0 19 [] = .ok (marks, bstop)) :
    processToolchange cnt usedTools purge0 lineNumber line back fwd =
      toolchangeSpec cnt usedTools (purgeDetect purge0 back) marks bstop
        lineNumber line cmd.value back fwd := by
  have hne : cnt + 1 ≠ 1 := by omega
  rcases hpg : purgeDetect purge0 back with _ | _
  · -- no purge tower: backward scan runs, forward scan redacts
    have hbg := hback hpg
    have h0 : ({} : FwdState) = stateOfNP [] := rfl
    simp only [processToolchange, hp, hT, hpg, if_neg hne, reduceIte,
      Bool.false_eq_true, if_false, hbg]
    rw [h0, fwdGo_noPurge_char]
    simp only [toolchangeSpec, fwdResultNP, firstXYCmd?, Option.isSome_none,
      Bool.false_eq_true, if_false, List.nil_append, firstXYCmd?_scanPre]
    rcases hfx : firstXYCmd? (fwd.take 19) with _ | xyc
    · simp
    · by_cases hb2 : bstop = true <;>
        by_cases hsuf : (scanSuf false (fwd.take 19)).isEmpty = true <;>
        simp [hb2, hsuf]
  · -- purge tower: no backward scan, no redaction
    have h0 : ({} : FwdState) =
        ⟨firstXYCmd? [], none, 0, 0, false, [], none⟩ := rfl
    simp only [processToolchange, hp, hT, hpg, if_neg hne, reduceIte]
    rw [h0, fwdGo_purge_char]
    simp only [toolchangeSpec, firstXYCmd?, Option.isSome_none,
      Bool.false_eq_true, if_false, List.nil_append, firstXYCmd?_scanPre]
    rw [scanPre_append_scanSuf false (fwd.take 19), List.take_append_drop]
    rcases hfx : firstXYCmd? (fwd.take 19) with _ | xyc
    · simp
    · by_cases hsuf : (scanSuf false (fwd.take 19)).isEmpty = true <;>
        simp [hsuf, strAppendEmpty]

/-- **C2**, counterexample to the original wording: on a non-first `T1` with
three Z moves inside the 19-line forward window — two before the first
XY-bearing `G1` and one after it — `processToolchange` emits *no*
more-than-two-z-moves warning, because `Actions.ts` counts the two groups
separately (`zMoveCount1`/`zMoveCount2`) and warns only when one group alone
exceeds two.  The toolshift line is still rewritten from the first XY move
and the last Z move, and all but the last Z move are redacted. -/
theorem processToolchange_z_warning_counterexample :
    processToolchange 1 [] (some false) 9 "T1" []
        ["G1 Z1", "G1 Z2", "G1 X5 Y5", "G1 Z3"] =
      .ok ⟨"T1 X5 Y5 Z3", [],
           [REMOVED_BY_RATOS ++ "G1 Z1", REMOVED_BY_RATOS ++ "G1 Z2",
            "G1 X5 Y5", "G1 Z3"], 2, ["1"], some false,
           [backSmellMsg 9, fwdSmellMsg 9], true⟩ ∧
      countZ ["G1 Z1", "G1 Z2", "G1 X5 Y5", "G1 Z3"] = 3 ∧
      zSmellMsg 9 ∉ [backSmellMsg 9, fwdSmellMsg 9] :=
  ⟨by decide, by decide, by decide⟩

/-- **C2** (amended).  For every tool-change line `T<n>` that is not the
first tool-change of the file, `processToolchange` scans forward up to 19
lines and behaves as `toolchangeSpec`: it captures the first `G1` bearing an
X or Y parameter and replaces the `T<n>` line with `T<n> X<x> Y<y>`; when no
purge tower was detected it appends ` Z<z>` from the last Z move seen before
the stop, prefixes every E move and all but the last Z move in the scanned
part of the window with the removed-by marker, and warns when *either group*
of Z moves (before the first XY move, or from it onwards) alone has more
than two members; if no XY-bearing `G1` exists within the 19 lines, it
raises a `GCodeError`. -/
theorem processToolchange_behaviour
    (cnt : Nat) (usedTools : List String) (purge0 : Option Bool)
    (lineNumber : Int) (line : String) (back fwd : List String)
    (cmd : CommonGCodeCommand) (marks : List Nat) (bstop : Bool)
    (hp : parseCommonGCodeCommandLine line = some cmd)
    (hT : cmd.letter = 'T') (hcnt : 1 ≤ cnt)
    (hback : purgeDetect purge0 back = false →
      backGo back 0 19 [] = .ok (marks, bstop)) :
    processToolchange cnt usedTools purge0 lineNumber line back fwd =
      toolchangeSpec cnt usedTools (purgeDetect purge0 back) marks bstop
        lineNumber line cmd.value back fwd :=
  processToolchange_eq_spec cnt usedTools purge0 lineNumber line back fwd
    cmd marks bstop hp hT hcnt hback

theorem processToolchange_behaviour_witness :
    processToolchange 1 [] (some false) 9 "T2" [] ["G1 X5 Y5"] =
      toolchangeSpec 1 [] (purgeDetect (some false) []) [] false 9 "T2" "2"
        [] ["G1 X5 Y5"] :=
  processToolchange_behaviour 1 [] (some false) 9 "T2" [] ["G1 X5 Y5"]
    ⟨'T', "2", none, none, none, none, none, none, none⟩ [] false
    (by decide) rfl (by decide) (fun _ => by decide)

/-- **C10**.  If, within the 19-line forward scan after a non-first `T<n>`
line, the first `G1` carrying an X or Y parameter carries only one of the
two, `processToolchange` still selects it as the destination move and the
rewritten toolshift line renders the missing coordinate as the literal text
`undefined` (for example `T1 X12 Yundefined`), because the source
interpolates the raw capture group into a template literal. -/
theorem toolchange_missing_coordinate_undefined
    (cnt : Nat) (usedTools : List String) (purge0 : Option Bool)
    (lineNumber : Int) (line : String) (back fwd : List String)
    (cmd xyc : CommonGCodeCommand) (marks : List Nat) (bstop : Bool)
    (hp : parseCommonGCodeCommandLine line = some cmd)
    (hT : cmd.letter = 'T') (hcnt : 1 ≤ cnt)
    (hback : purgeDetect purge0 back = false →
      backGo back 0 19 [] = .ok (marks, bstop))
    (hfx : firstXYCmd? (fwd.take 19) = some xyc)
    (hy : xyc.y = none) :
    ∃ out zsfx,
      processToolchange cnt usedTools purge0 lineNumber line back fwd =
        .ok out ∧
      out.line =
        ("T" ++ cmd.value ++ " X" ++ optUndef xyc.x ++ " Y" ++ "undefined")
          ++ zsfx := by
  rw [processToolchange_eq_spec cnt usedTools purge0 lineNumber line back fwd
      cmd marks bstop hp hT hcnt hback]
  rcases hpd : purgeDetect purge0 back with _ | _
  · simp only [toolchangeSpec, hfx, Bool.false_eq_true, if_false]
    refine ⟨_, (match lastZCmd? (scanPre false (fwd.take 19)) with
      | some zc => " Z" ++ optUndef zc.z
      | none => ""), rfl, ?_⟩
    simp [hy, optUndef]
  · simp only [toolchangeSpec, hfx, if_true]
    refine ⟨_, "", rfl, ?_⟩
    simp [hy, optUndef, strAppendEmpty]

theorem toolchange_missing_coordinate_undefined_witness :
    ∃ out zsfx,
      processToolchange 1 [] (some false) 9 "T1" [] ["G1 X12"] = .ok out ∧
      out.line =
        ("T" ++ "1" ++ " X" ++ optUndef (some "12") ++ " Y" ++ "undefined")
          ++ zsfx :=
  toolchange_missing_coordinate_undefined 1 [] (some false) 9 "T1" []
    ["G1 X12"] ⟨'T', "1", none, none, none, none, none, none, none⟩
    ⟨'G', "1", some "12", none, none, none, none, none, none⟩ [] false
    (by decide) rfl (by decide) (fun _ => by decide) (by decide) rfl

/-! ### Bookmarks, the bookmarking buffer encoder and the sliding window
(`Bookmark.ts`, `BookmarkingBufferEncoder.ts` lines 46–58,
`SlidingWindowLineProcessor.ts` `_transform`/`_flush`,
`replaceBookmarkedGcodeLine`) -/

/-- A `Bookmark` (line text, byte offset of the encoded line, encoded byte
length including the newline). -/
structure BookmarkRec where
  line : String
  byteOffset : Nat
  byteLength : Nat
deriving Repr, DecidableEq

/-- An exception thrown by `replaceBookmarkedGcodeLine`: a JS `RangeError`
or a plain `Error`. -/
inductive ReplaceError
  | rangeError (msg : String)
  | error (msg : String)
deriving Repr, DecidableEq

/-- The `RangeError` message of `replaceBookmarkedGcodeLine`. -/
def replaceRangeMsg (need avail : Nat) : String :=
  "The line cannot be replaced in-place. The replacement requires " ++
  toString need ++ " bytes, but only " ++ toString avail ++
  " bytes are available."

/-- `replaceBookmarkedGcodeLine` (`SlidingWindowLineProcessor.ts` lines
209–227): trim the replacement, throw a `RangeError` when it does not fit,
pad with spaces to the bookmarked byte length (newline included) and write
the bytes at the bookmarked offset.  The result is the write position and
the bytes written. -/
def replaceBookmarkedGcodeLine (bm : BookmarkRec) (replacementLine : String) :
    Except ReplaceError (Nat × List Nat) :=
  let line := jsTrimEnd replacementLine
  let buf := utf8Bytes line
  if bm.byteLength < buf.length + 1 then
    .error (.rangeError (replaceRangeMsg (buf.length + 1) bm.byteLength))
  else
    let buf2 := utf8Bytes (jsPadBy line (bm.byteLength - buf.length - 1) ++ "\n")
    if buf2.length ≠ bm.byteLength then .error (.error "Unexpected length mismatch!")
    else .ok (bm.byteOffset, buf2)

/-- A `BookmarkableLine` as it travels between the sliding window and the
encoder; `line = none` models a JS `null` line. -/
structure BookmarkableLineM where
  line : Option String
  bookmarkKey : Option Nat
deriving Repr, DecidableEq

/-- JS truthiness of `chunk.line`: `null` and the empty string are falsy. -/
def lineTruthy : Option String → Bool
  | none => false
  | some s => !(s == "")

/-- A freshly buffered line (`new BookmarkableLine(chunk)`). -/
def freshItem (s : String) : BookmarkableLineM := ⟨some s, none⟩

/-- The line text of an item (`""` for a removed line). -/
def itLine (it : BookmarkableLineM) : String := it.line.getD ""

/-- Encoded byte length of an item's line plus its newline. -/
def encLen (it : BookmarkableLineM) : Nat := utf8Len (itLine it ++ "\n")

/-- The state of `BookmarkingBufferEncoder`: bytes written so far, the
bookmark map (as an association list in insertion order) and the buffers
pushed so far. -/
structure EncState where
  bytesWritten : Nat := 0
  bookmarks : List (Nat × BookmarkRec) := []
  out : List (List Nat) := []
deriving Repr, DecidableEq

/-- `BookmarkingBufferEncoder._transform` (lines 46–58) on one chunk: a
`BookmarkableLine` with a truthy line is encoded (newline appended),
bookmarked when a key is set, and pushed; every other truthy chunk makes the
callback fail with `Unexpected type!`. -/
def encStep (st : EncState) (it : BookmarkableLineM) : Except String EncState :=
  if lineTruthy it.line then
    let buffer := utf8Bytes (itLine it ++ "\n")
    .ok { bytesWritten := st.bytesWritten + buffer.length
          bookmarks :=
            match it.bookmarkKey with
            | some k =>
              st.bookmarks ++ [(k, ⟨itLine it, st.bytesWritten, buffer.length⟩)]
            | none => st.bookmarks
          out := st.out ++ [buffer] }
  else .error "Unexpected type!"

/-- `BookmarkingBufferEncoder` over a whole chunk stream; the first failing
chunk destroys the stream. -/
def encRun (st : EncState) : List BookmarkableLineM → Except String EncState
  | [] => .ok st
  | it :: rest =>
    match encStep st it with
    | .error e => .error e
    | .ok st2 => encRun st2 rest

/-- The state of `SlidingWindowLineProcessor`: the ring buffer (oldest
first) and `#position` (`-1` until priming completes). -/
structure WinState where
  buf : List BookmarkableLineM
  pos : Int
deriving Repr, DecidableEq

/-- `SlidingWindowLineProcessor._transform` on one input line, for a window
of `N = maxLinesBehind + maxLinesAhead + 1` lines with `mb = maxLinesBehind`:
while not full, buffer the line; when the buffer just filled, process
positions `0..mb`; in the steady state, evict and push the oldest line (when
truthy), buffer the new line and process position `mb`.  Returns the new
state and the pushed items. -/
def winStep (cb : BookmarkableLineM → BookmarkableLineM) (mb N : Nat)
    (st : WinState) (chunk : String) :
    Except String (WinState × List BookmarkableLineM) :=
  let addedEarly := decide (st.buf.length < N)
  let buf1 := if addedEarly then st.buf ++ [freshItem chunk] else st.buf
  if addedEarly && decide (buf1.length < N) then
    .ok (⟨buf1, st.pos⟩, [])
  else if st.pos = -1 then
    .ok (⟨(buf1.take (mb + 1)).map cb ++ buf1.drop (mb + 1), (mb : Int)⟩, [])
  else if st.pos ≠ (mb : Int) then .error "Unexpected state!"
  else
    match buf1 with
    | [] => .error "Unexpected state!"
    | itemToPush :: tail =>
      let buf2 := tail ++ [freshItem chunk]
      let buf3 := buf2.take mb ++ (buf2.drop mb).modifyHead cb
      .ok (⟨buf3, (mb : Int)⟩,
           if lineTruthy itemToPush.line then [itemToPush] else [])

/-- `SlidingWindowLineProcessor` over a whole input stream, collecting the
pushed items in order. -/
def winRun (cb : BookmarkableLineM → BookmarkableLineM) (mb N : Nat)
    (st : WinState) : List String →
    Except String (WinState × List BookmarkableLineM)
  | [] => .ok (st, [])
  | x :: rest =>
    match winStep cb mb N st x with
    | .error e => .error e
    | .ok (st2, pushed) =>
      match winRun cb mb N st2 rest with
      | .error e => .error e
      | .ok (st3, pushed2) => .ok (st3, pushed ++ pushed2)

/-- `SlidingWindowLineProcessor._flush` (lines 154–170): process every
position after `#position`, then push *all* buffered items, truthy or not. -/
def winFlush (cb : BookmarkableLineM → BookmarkableLineM) (st : WinState) :
    WinState × List BookmarkableLineM :=
  let t := (st.pos + 1).toNat
  let processed := st.buf.take t ++ (st.buf.drop t).map cb
  (⟨processed, (processed.length : Int) - 1⟩, processed)

/-- The window pipelined into the encoder, as in the processor stream
(`SlidingWindowLineProcessor` piped into `BookmarkingBufferEncoder`). -/
def pipelineRun (cb : BookmarkableLineM → BookmarkableLineM) (mb ma : Nat)
    (xs : List String) : Except String EncState :=
  match winRun cb mb (mb + ma + 1) ⟨[], -1⟩ xs with
  | .error e => .error e
  | .ok (st, pushed) => encRun {} (pushed ++ (winFlush cb st).2)

/-- The expected bookmark list for a stream of items written starting at
byte offset `off`: one record per keyed item, at the running offset. -/
def expBookmarks : List BookmarkableLineM → Nat → List (Nat × BookmarkRec)
  | [], _ => []
  | it :: rest, off =>
    (match it.bookmarkKey with
     | some k => [(k, ⟨itLine it, off, encLen it⟩)]
     | none => []) ++ expBookmarks rest (off + encLen it)

/-- Total encoded length of a stream of items. -/
def totalLen (items : List BookmarkableLineM) : Nat :=
  (items.map encLen).sum

/-- The final window state after consuming `xs` from scratch: below `N`
lines everything is buffered fresh and unprocessed; from `N` lines on, the
window holds the last `N` lines, processed up to position `mb`. -/
def winDesc (cb : BookmarkableLineM → BookmarkableLineM) (mb N : Nat)
    (xs : List String) : WinState :=
  if xs.length < N then ⟨xs.map freshItem, -1⟩
  else
    ⟨((xs.drop (xs.length - N)).take (mb + 1)).map (fun x => cb (freshItem x))
       ++ (xs.drop (xs.length - N + (mb + 1))).map freshItem, (mb : Int)⟩

/-- The items pushed while consuming `xs` from scratch: the processed forms
of all evicted lines, in order, filtered by truthiness. -/
def winPushes (cb : BookmarkableLineM → BookmarkableLineM) (N : Nat)
    (xs : List String) : List BookmarkableLineM :=
  ((xs.take (xs.length - N)).map (fun x => cb (freshItem x))).filter
    (fun it => lineTruthy it.line)

/-- **C7**.  For every bookmark and replacement line,
`replaceBookmarkedGcodeLine` raises a `RangeError` (cannot replace in place)
exactly when the UTF-8 byte length of the trimmed replacement plus one byte
for the newline exceeds the bookmark's recorded byte length; when it
succeeds it writes exactly `bookmark.byteLength` bytes at
`bookmark.byteOffset`, consisting of the trimmed replacement, space padding
only, and a terminating newline (the internal length-mismatch branch is
unreachable). -/
theorem replaceBookmarkedGcodeLine_behaviour (bm : BookmarkRec) (r : String) :
    (bm.byteLength < utf8Len (jsTrimEnd r) + 1 →
      replaceBookmarkedGcodeLine bm r =
        .error (.rangeError
          (replaceRangeMsg (utf8Len (jsTrimEnd r) + 1) bm.byteLength))) ∧
    (utf8Len (jsTrimEnd r) + 1 ≤ bm.byteLength →
      replaceBookmarkedGcodeLine bm r =
        .ok (bm.byteOffset,
          utf8Bytes (jsTrimEnd r) ++
            List.replicate (bm.byteLength - (utf8Len (jsTrimEnd r) + 1)) 32 ++
            [10]) ∧
      (utf8Bytes (jsTrimEnd r) ++
        List.replicate (bm.byteLength - (utf8Len (jsTrimEnd r) + 1)) 32 ++
        [10]).length = bm.byteLength) := by
  constructor
  · intro h
    simp only [replaceBookmarkedGcodeLine]
    rw [if_pos (by simpa [utf8Len] using h)]
    rfl
  · intro h
    have hc : ¬ bm.byteLength < (utf8Bytes (jsTrimEnd r)).length + 1 := by
      simp only [utf8Len] at h
      omega
    have hb : utf8Bytes (jsPadBy (jsTrimEnd r)
          (bm.byteLength - (utf8Bytes (jsTrimEnd r)).length - 1) ++ "\n") =
        utf8Bytes (jsTrimEnd r) ++
          List.replicate (bm.byteLength - (utf8Len (jsTrimEnd r) + 1)) 32 ++
          [10] := by
      rw [utf8Bytes_append, jsPadBy, utf8Bytes_append, utf8Bytes_spaces]
      have h10 : utf8Bytes "\n" = [10] := rfl
      rw [h10]
      simp [utf8Len, Nat.sub_sub]
    have hlen : (utf8Bytes (jsTrimEnd r) ++
        List.replicate (bm.byteLength - (utf8Len (jsTrimEnd r) + 1)) 32 ++
        [10]).length = bm.byteLength := by
      simp only [List.length_append, List.length_replicate,
        List.length_singleton, utf8Len] at *
      omega
    refine ⟨?_, hlen⟩
    simp only [replaceBookmarkedGcodeLine, if_neg hc, hb]
    rw [if_neg (by rw [hlen]; simp)]

theorem replaceBookmarkedGcodeLine_behaviour_witness :
    utf8Len (jsTrimEnd "G28 ") + 1 ≤ 10 ∧
    replaceBookmarkedGcodeLine ⟨"", 0, 10⟩ "G28 " =
      .ok (0, utf8Bytes (jsTrimEnd "G28 ") ++
        List.replicate (10 - (utf8Len (jsTrimEnd "G28 ") + 1)) 32 ++ [10]) :=
  ⟨by decide,
   ((replaceBookmarkedGcodeLine_behaviour ⟨"", 0, 10⟩ "G28 ").2 (by decide)).1⟩

theorem winStep_notFull (cb : BookmarkableLineM → BookmarkableLineM)
    (mb N : Nat) (st : WinState) (chunk : String)
    (h2 : st.buf.length + 1 < N) :
    winStep cb mb N st chunk = .ok (⟨st.buf ++ [freshItem chunk], st.pos⟩, []) := by
  have h1 : st.buf.length < N := by omega
  simp only [winStep, decide_eq_true_eq, h1, if_true, List.length_append,
    List.length_cons, List.length_nil]
  rw [if_pos]
  simp [h1, h2]

theorem winStep_prime (cb : BookmarkableLineM → BookmarkableLineM)
    (mb N : Nat) (st : WinState) (chunk : String)
    (h1 : st.buf.length < N) (h2 : ¬ st.buf.length + 1 < N)
    (hpos : st.pos = -1) :
    winStep cb mb N st chunk =
      .ok (⟨((st.buf ++ [freshItem chunk]).take (mb + 1)).map cb ++
            (st.buf ++ [freshItem chunk]).drop (mb + 1), (mb : Int)⟩, []) := by
  simp only [winStep, decide_eq_true_eq, h1, if_true, List.length_append,
    List.length_cons, List.length_nil]
  rw [if_neg, if_pos hpos]
  simp [h1, h2]

theorem winStep_steady (cb : BookmarkableLineM → BookmarkableLineM)
    (mb N : Nat) (chunk : String) (itemToPush : BookmarkableLineM)
    (tail : List BookmarkableLineM)
    (hfull : ¬ (itemToPush :: tail).length < N) :
    winStep cb mb N ⟨itemToPush :: tail, (mb : Int)⟩ chunk =
      .ok (⟨(tail ++ [freshItem chunk]).take mb ++
            ((tail ++ [freshItem chunk]).drop mb).modifyHead cb, (mb : Int)⟩,
           if lineTruthy itemToPush.line then [itemToPush] else []) := by
  have hm1 : ¬ ((mb : Int) = -1) := by omega
  simp only [winStep, decide_eq_true_eq, hfull, if_false, Bool.false_and,
    Bool.false_eq_true, hm1, ne_eq, not_true_eq_false, ite_false, ite_true,
    not_false_eq_true]
  simp

theorem winRun_snoc (cb : BookmarkableLineM → BookmarkableLineM) (mb N : Nat)
    (xs : List String) (x : String) : ∀ st : WinState,
    winRun cb mb N st (xs ++ [x]) =
      match winRun cb mb N st xs with
      | .error e => .error e
      | .ok (st2, p) =>
        match winStep cb mb N st2 x with
        | .error e => .error e
        | .ok (st3, p2) => .ok (st3, p ++ p2) := by
  induction xs with
  | nil =>
    intro st
    simp only [List.nil_append, winRun]
    rcases winStep cb mb N st x with e | ⟨st2, p⟩ <;> simp [winRun]
  | cons y ys ih =>
    intro st
    simp only [List.cons_append, winRun]
    rcases hs : winStep cb mb N st y with e | ⟨st2, p⟩
    · rfl
    · simp only [List.append_eq]
      rw [ih st2]
      rcases winRun cb mb N st2 ys with e | ⟨st3, p2⟩
      · rfl
      · dsimp only
        rcases winStep cb mb N st3 x with e | ⟨st4, p3⟩ <;> simp

theorem winRun_char (cb : BookmarkableLineM → BookmarkableLineM)
    (mb N : Nat) (hN : mb < N) (xs : List String) :
    winRun cb mb N ⟨[], -1⟩ xs =
      .ok (winDesc cb mb N xs, winPushes cb N xs) := by
  induction xs using List.reverseRecOn with
  | nil =>
    have h0 : (0 : Nat) < N := by omega
    simp [winRun, winDesc, winPushes, h0]
  | append_singleton ys x ih =>
    rw [winRun_snoc, ih]
    dsimp only
    by_cases hA : ys.length + 1 < N
    · -- still not full after adding
      have h0 : ys.length < N := by omega
      have hdesc : winDesc cb mb N ys = ⟨ys.map freshItem, -1⟩ := by
        simp [winDesc, h0]
      rw [hdesc,
        winStep_notFull cb mb N ⟨ys.map freshItem, -1⟩ x (by simpa using hA)]
      have hz0 : ys.length - N = 0 := by omega
      have hz1 : ys.length + 1 - N = 0 := by omega
      have hdescA : winDesc cb mb N (ys ++ [x]) =
          ⟨(ys ++ [x]).map freshItem, -1⟩ := by simp [winDesc, hA]
      have hp0 : winPushes cb N ys = [] := by simp [winPushes, hz0]
      have hp1 : winPushes cb N (ys ++ [x]) = [] := by simp [winPushes, hz1]
      rw [hdescA, hp0, hp1]
      simp [List.map_append]
    · by_cases hB : ys.length + 1 = N
      · -- the buffer just filled: prime positions 0..mb
        have h0 : ys.length < N := by omega
        have hdesc : winDesc cb mb N ys = ⟨ys.map freshItem, -1⟩ := by
          simp [winDesc, h0]
        rw [hdesc,
          winStep_prime cb mb N ⟨ys.map freshItem, -1⟩ x (by simpa using h0)
            (by simpa using hA) rfl]
        have hc : ¬ (ys ++ [x]).length < N := by simp; omega
        have hk : (ys ++ [x]).length - N = 0 := by simp; omega
        have hz0 : ys.length - N = 0 := by omega
        have hmap : ys.map freshItem ++ [freshItem x] =
            (ys ++ [x]).map freshItem := by simp
        have hdesc2 : winDesc cb mb N (ys ++ [x]) =
            ⟨((ys ++ [x]).take (mb + 1)).map (fun v => cb (freshItem v)) ++
              ((ys ++ [x]).drop (mb + 1)).map freshItem, (mb : Int)⟩ := by
          simp only [winDesc, hc, if_false]
          rw [hk]
          simp only [Nat.zero_add, List.drop_zero]
        have hk2 : ys.length + 1 - N = 0 := by omega
        have hp0 : winPushes cb N ys = [] := by simp [winPushes, hz0]
        have hp1 : winPushes cb N (ys ++ [x]) = [] := by simp [winPushes, hk2]
        rw [hmap, hdesc2, hp0, hp1, ← List.map_take, ← List.map_drop,
          List.map_map]
        simp [Function.comp_def]
      · -- steady state: evict, push, process position mb
        have hge : N ≤ ys.length := by omega
        have hklt : ys.length - N < ys.length := by omega
        obtain ⟨d, t, ht⟩ : ∃ d t, ys.drop (ys.length - N) = d :: t := by
          cases hd : ys.drop (ys.length - N) with
          | nil =>
            have := congrArg List.length hd
            simp [List.length_drop] at this
            omega
          | cons d t => exact ⟨d, t, rfl⟩
        have htt : t = ys.drop (ys.length - N + 1) := by
          have h2 := congrArg List.tail ht
          simpa [List.tail_drop] using h2.symm
        have hlent : t.length = N - 1 := by
          rw [htt]; simp [List.length_drop]; omega
        have hA1len : ((t.take mb).map (fun v => cb (freshItem v))).length
            = mb := by
          simp [List.length_take, hlent]; omega
        have hdesc : winDesc cb mb N ys =
            ⟨cb (freshItem d) :: ((t.take mb).map (fun v => cb (freshItem v))
              ++ (t.drop mb).map freshItem), (mb : Int)⟩ := by
          have hc : ¬ ys.length < N := by omega
          have hdd : ys.drop (ys.length - N + (mb + 1)) = t.drop mb := by
            have he : ys.length - N + (mb + 1) = (ys.length - N + 1) + mb := by
              omega
            rw [he, ← List.drop_drop, ← htt]
          simp only [winDesc, hc, if_false, ht, hdd, List.take_succ_cons,
            List.map_cons]
          simp [List.cons_append]
        rw [hdesc, winStep_steady cb mb N x _ _ ?hfull]
        case hfull =>
          simp only [List.length_cons, List.length_append, List.length_map,
            List.length_take, List.length_drop, hlent]
          omega
        -- compute the new buffer
        have hbuf2 : (((t.take mb).map (fun v => cb (freshItem v))
              ++ (t.drop mb).map freshItem) ++ [freshItem x]) =
            ((t.take mb).map (fun v => cb (freshItem v))
              ++ ((t.drop mb).map freshItem ++ [freshItem x])) := by
          simp [List.append_assoc]
        have htake : (((t.take mb).map (fun v => cb (freshItem v))
              ++ ((t.drop mb).map freshItem ++ [freshItem x]))).take mb =
            (t.take mb).map (fun v => cb (freshItem v)) :=
          List.take_left' hA1len
        have hdrop : (((t.take mb).map (fun v => cb (freshItem v))
              ++ ((t.drop mb).map freshItem ++ [freshItem x]))).drop mb =
            (t.drop mb).map freshItem ++ [freshItem x] :=
          List.drop_left' hA1len
        rw [hbuf2, htake, hdrop]
        -- the pushes
        have hpush : winPushes cb N (ys ++ [x]) =
            winPushes cb N ys ++
              (if lineTruthy (cb (freshItem d)).line = true
               then [cb (freshItem d)] else []) := by
          have hk1 : (ys ++ [x]).length - N = (ys.length - N) + 1 := by
            simp; omega
          have htk : (ys ++ [x]).take ((ys.length - N) + 1) =
              ys.take ((ys.length - N) + 1) := by
            rw [List.take_append_eq_append_take]
            have : ys.length - N + 1 - ys.length = 0 := by omega
            simp [this]
          have htk2 : ys.take ((ys.length - N) + 1) =
              ys.take (ys.length - N) ++ [d] := by
            rw [List.take_succ]
            have hget : ys[ys.length - N]? = some d := by
              rw [← List.head?_drop, ht]
              rfl
            simp [hget]
          simp only [winPushes, hk1, htk, htk2, List.map_append,
            List.filter_append, List.map_cons, List.map_nil]
          simp [List.filter]
          cases lineTruthy (cb (freshItem d)).line <;> rfl
        rw [hpush]
        -- the new window description
        rcases hdm : t.drop mb with _ | ⟨d2, t2⟩
        · -- `mb = N - 1`: the fresh part is empty, the new line is processed
          have hlmb : t.length ≤ mb := by
            have := congrArg List.length hdm
            simp [List.length_drop] at this
            omega
          have hteq : t.length = mb := by omega
          have hc2 : ¬ (ys ++ [x]).length < N := by simp; omega
          have hk1 : (ys ++ [x]).length - N = (ys.length - N) + 1 := by
            simp; omega
          have hdr : (ys ++ [x]).drop ((ys.length - N) + 1) = t ++ [x] := by
            rw [List.drop_append_eq_append_drop, ← htt]
            have : ys.length - N + 1 - ys.length = 0 := by omega
            simp [this]
          have hta : (t ++ [x]).take (mb + 1) = t ++ [x] := by
            apply List.take_of_length_le
            simp [hteq]
          have hdr2 : (ys ++ [x]).drop ((ys.length - N) + 1 + (mb + 1)) =
              [] := by
            apply List.drop_eq_nil_of_le
            simp
            omega
          have htmb : t.take mb = t := List.take_of_length_le (by omega)
          simp only [winDesc, hc2, if_false, hk1, hdr, hta, hdr2, htmb,
            List.map_append, List.map_cons, List.map_nil, List.modifyHead,
            List.append_nil]
          simp
        · -- general case: the next fresh line is processed
          have hmblt : mb < t.length := by
            by_contra hcon
            rw [List.drop_eq_nil_of_le (by omega)] at hdm
            exact absurd hdm (by simp)
          have hc2 : ¬ (ys ++ [x]).length < N := by simp; omega
          have hk1 : (ys ++ [x]).length - N = (ys.length - N) + 1 := by
            simp; omega
          have hdr : (ys ++ [x]).drop ((ys.length - N) + 1) = t ++ [x] := by
            rw [List.drop_append_eq_append_drop, ← htt]
            have : ys.length - N + 1 - ys.length = 0 := by omega
            simp [this]
          have hta : (t ++ [x]).take (mb + 1) = t.take mb ++ [d2] := by
            rw [List.take_append_eq_append_take]
            have h1 : mb + 1 - t.length = 0 := by omega
            rw [List.take_succ]
            have hget : t[mb]? = some d2 := by
              rw [← List.head?_drop, hdm]
              rfl
            simp [h1, hget]
          have hdr2 : (ys ++ [x]).drop ((ys.length - N) + 1 + (mb + 1)) =
              t2 ++ [x] := by
            rw [List.drop_append_eq_append_drop]
            have h1 : ys.length - N + 1 + (mb + 1) - ys.length = 0 := by
              omega
            have h2 : ys.drop (ys.length - N + 1 + (mb + 1)) = t2 := by
              rw [← List.drop_drop, ← htt]
              have h3 := congrArg List.tail hdm
              simpa [List.tail_drop] using h3
            simp [h1, h2]
          simp only [winDesc, hc2, if_false, hk1, hdr, hta, hdr2,
            List.map_append, List.map_cons, List.map_nil, List.modifyHead]
          simp

theorem encRun_ok (items : List BookmarkableLineM) : ∀ st : EncState,
    (∀ it ∈ items, lineTruthy it.line = true) →
    encRun st items = .ok
      { bytesWritten := st.bytesWritten + totalLen items
        bookmarks := st.bookmarks ++ expBookmarks items st.bytesWritten
        out := st.out ++ items.map (fun it => utf8Bytes (itLine it ++ "\n")) } := by
  induction items with
  | nil =>
    intro st h
    simp [encRun, totalLen, expBookmarks]
  | cons it rest ih =>
    intro st h
    have hit : lineTruthy it.line = true := h it (by simp)
    have hrest : ∀ v ∈ rest, lineTruthy v.line = true := fun v hv =>
      h v (by simp [hv])
    simp only [encRun, encStep, hit, if_true]
    rw [ih _ hrest]
    rcases hbk : it.bookmarkKey with _ | k <;>
      simp [totalLen, expBookmarks, encLen, hbk, utf8Len, Nat.add_assoc,
        List.append_assoc]

/-- **C8**.  For a fixed input stream (and a per-line callback that never
removes or empties a line, so that every line survives to the encoder), the
sliding window piped into the bookmarking encoder pushes, in input order,
exactly the UTF-8 encoding of each line as it stands after the callback has
run, each followed by one newline; and each bookmark records the byte offset
at which its line was written (the total length of the preceding buffers)
and the encoded byte length including the newline. -/
theorem pipeline_forward_determinism
    (cb : BookmarkableLineM → BookmarkableLineM) (mb ma : Nat)
    (xs : List String)
    (hcb : ∀ x : String, lineTruthy (cb (freshItem x)).line = true) :
    pipelineRun cb mb ma xs =
      .ok { bytesWritten := totalLen (xs.map (fun x => cb (freshItem x)))
            bookmarks := expBookmarks (xs.map (fun x => cb (freshItem x))) 0
            out := (xs.map (fun x => cb (freshItem x))).map
                     (fun it => utf8Bytes (itLine it ++ "\n")) } := by
  have hN : mb < mb + ma + 1 := by omega
  have hall : ∀ it ∈ xs.map (fun x => cb (freshItem x)),
      lineTruthy it.line = true := by
    intro it hmem
    obtain ⟨x, _, hx⟩ := List.mem_map.mp hmem
    rw [← hx]
    exact hcb x
  unfold pipelineRun
  rw [winRun_char cb mb (mb + ma + 1) hN xs]
  dsimp only
  by_cases hlen : xs.length < mb + ma + 1
  · have hdesc : winDesc cb mb (mb + ma + 1) xs = ⟨xs.map freshItem, -1⟩ := by
      simp [winDesc, hlen]
    have hz : xs.length - (mb + ma + 1) = 0 := by omega
    have hp : winPushes cb (mb + ma + 1) xs = [] := by simp [winPushes, hz]
    have hfl : (winFlush cb ⟨xs.map freshItem, -1⟩).2 =
        xs.map (fun x => cb (freshItem x)) := by
      simp [winFlush, List.map_map, Function.comp_def]
    rw [hdesc, hp, hfl]
    rw [List.nil_append, encRun_ok _ _ hall]
    simp
  · have hc : ¬ xs.length < mb + ma + 1 := hlen
    have hA1len : (((xs.drop (xs.length - (mb + ma + 1))).take (mb + 1)).map
        (fun v => cb (freshItem v))).length = mb + 1 := by
      simp [List.length_take, List.length_drop]
      omega
    have hdesc : winDesc cb mb (mb + ma + 1) xs =
        ⟨((xs.drop (xs.length - (mb + ma + 1))).take (mb + 1)).map
            (fun v => cb (freshItem v)) ++
          (xs.drop (xs.length - (mb + ma + 1) + (mb + 1))).map freshItem,
          (mb : Int)⟩ := by
      simp only [winDesc, hc, if_false]
    have hfl : (winFlush cb
        ⟨((xs.drop (xs.length - (mb + ma + 1))).take (mb + 1)).map
            (fun v => cb (freshItem v)) ++
          (xs.drop (xs.length - (mb + ma + 1) + (mb + 1))).map freshItem,
          (mb : Int)⟩).2 =
        ((xs.drop (xs.length - (mb + ma + 1))).take (mb + 1)).map
            (fun v => cb (freshItem v)) ++
          (xs.drop (xs.length - (mb + ma + 1) + (mb + 1))).map
            (fun v => cb (freshItem v)) := by
      simp only [winFlush]
      have htn : ((mb : Int) + 1).toNat = mb + 1 := by omega
      rw [htn, List.take_left' hA1len, List.drop_left' hA1len]
      simp [List.map_map, Function.comp_def]
    rw [hdesc, hfl]
    have hfilter : winPushes cb (mb + ma + 1) xs =
        (xs.take (xs.length - (mb + ma + 1))).map
          (fun x => cb (freshItem x)) := by
      apply List.filter_eq_self.mpr
      intro a ha
      obtain ⟨x, _, hx⟩ := List.mem_map.mp ha
      rw [← hx]
      exact hcb x
    rw [hfilter]
    have hjoin : (xs.take (xs.length - (mb + ma + 1))).map
          (fun x => cb (freshItem x)) ++
        (((xs.drop (xs.length - (mb + ma + 1))).take (mb + 1)).map
            (fun v => cb (freshItem v)) ++
          (xs.drop (xs.length - (mb + ma + 1) + (mb + 1))).map
            (fun v => cb (freshItem v))) =
        xs.map (fun x => cb (freshItem x)) := by
      rw [← List.drop_drop, ← List.map_append, List.take_append_drop,
        ← List.map_append, List.take_append_drop]
    rw [hjoin]
    rw [encRun_ok _ _ hall]
    simp

theorem pipeline_forward_determinism_witness :
    pipelineRun (fun it => ⟨some "G1", it.bookmarkKey⟩) 1 1
        ["a", "b", "c", "d"] =
      .ok { bytesWritten :=
              totalLen ((["a", "b", "c", "d"]).map
                (fun x => (fun it => (⟨some "G1", it.bookmarkKey⟩ :
                  BookmarkableLineM)) (freshItem x)))
            bookmarks :=
              expBookmarks ((["a", "b", "c", "d"]).map
                (fun x => (fun it => (⟨some "G1", it.bookmarkKey⟩ :
                  BookmarkableLineM)) (freshItem x))) 0
            out :=
              ((["a", "b", "c", "d"]).map
                (fun x => (fun it => (⟨some "G1", it.bookmarkKey⟩ :
                  BookmarkableLineM)) (freshItem x))).map
                (fun it => utf8Bytes (itLine it ++ "\n")) } :=
  pipeline_forward_determinism (fun it => ⟨some "G1", it.bookmarkKey⟩) 1 1
    ["a", "b", "c", "d"] (fun _ => rfl)

/-- **C9**.  `BookmarkingBufferEncoder._transform` encodes and forwards a
chunk only when its line is truthy (neither `null` nor empty): a truthy line
is encoded with its newline and appended to the output, while every other
chunk makes the encoder fail with `Unexpected type!`; and
`SlidingWindowLineProcessor._flush` pushes *every* item left in the final
window — removed or empty lines included — so a stream whose final window
retains such an item destroys the encoder. -/
theorem encoder_rejects_non_lines (st : EncState) (it : BookmarkableLineM) :
    (lineTruthy it.line = true →
      encStep st it = .ok
        { bytesWritten := st.bytesWritten + encLen it
          bookmarks :=
            match it.bookmarkKey with
            | some k =>
              st.bookmarks ++ [(k, ⟨itLine it, st.bytesWritten, encLen it⟩)]
            | none => st.bookmarks
          out := st.out ++ [utf8Bytes (itLine it ++ "\n")] }) ∧
    (lineTruthy it.line = false →
      encStep st it = .error "Unexpected type!") ∧
    (∀ (cb : BookmarkableLineM → BookmarkableLineM) (w : WinState),
      ((winFlush cb w).2).length = w.buf.length) ∧
    (∀ items : List BookmarkableLineM, it ∈ items →
      lineTruthy it.line = false →
      encRun st items = .error "Unexpected type!") := by
  refine ⟨?_, ?_, ?_, ?_⟩
  · intro h
    simp [encStep, h, encLen, utf8Len]
  · intro h
    simp [encStep, h]
  · intro cb w
    simp [winFlush]
    omega
  · intro items
    induction items generalizing st with
    | nil => intro hmem; simp at hmem
    | cons a rest ih =>
      intro hmem hfalse
      rcases List.mem_cons.mp hmem with he | hr
      · subst he
        simp [encRun, encStep, hfalse]
      · rcases ha : lineTruthy a.line with _ | _
        · simp [encRun, encStep, ha]
        · simp only [encRun, encStep, ha, if_true]
          exact ih _ hr hfalse

theorem encoder_rejects_non_lines_witness :
    encStep {} (⟨some "", some 3⟩ : BookmarkableLineM) =
        .error "Unexpected type!" ∧
    encRun {} [(⟨none, none⟩ : BookmarkableLineM)] =
        .error "Unexpected type!" :=
  ⟨(encoder_rejects_non_lines {} ⟨some "", some 3⟩).2.1 rfl,
   (encoder_rejects_non_lines {} ⟨none, none⟩).2.2.2
     [⟨none, none⟩] (by simp) rfl⟩

end RatOS
